import Mathlib

/-!
Verification of the Marketing-Tool dashboard (src/marketing_tool.py).

The development shallowly embeds the state-persistence layer
(sample_state, load_state, save_state, reset_state on a JSON document),
the status-colour mapping, the automation-rule matcher
(generate_auto_plan), the campaign-add path (parse_args,
ensure_valid_campaign_args, add_campaign) and the next-send date
validator (validate_next_send, which delegates to CPython
datetime.strptime with format string percent-Y dash percent-m dash
percent-d).

The JSON values written and read by the tool are modelled by an
inductive type `Json`; the stdlib calls json.dump(state, handle,
indent=2) and json.load(handle) are modelled by an executable
pretty-printer `json_dumps` (two-space indentation, ensure-ascii
escaping) and an executable reader `json_loads`, and the printer-reader
round trip is proved for the class `Json.wf` of documents whose strings
consist of characters in the inclusive range 0x20 to 0xFFFF and whose
decimal numbers are in canonical form, which covers every document the
tool itself produces.
-/

set_option maxHeartbeats 1000000
set_option linter.unusedVariables false

namespace MarketingTool

/-! ### Characters and digit strings -/

/-- The whitespace characters skipped between JSON tokens (CPython json). -/
def jsonWs (c : Char) : Bool :=
  c == ' ' || c == '\t' || c == '\n' || c == '\r'

/-- Decimal digit test on a character. -/
def decDigit (c : Char) : Bool :=
  48 ≤ c.toNat && c.toNat ≤ 57

/-- The character for a single decimal digit value. -/
def digitOf (k : Nat) : Char := Char.ofNat (48 + k)

/-- Decimal digit characters of a natural number, most significant first. -/
def natChars (n : Nat) : List Char :=
  if h : n < 10 then [digitOf n]
  else natChars (n / 10) ++ [digitOf (n % 10)]
termination_by n
decreasing_by exact Nat.div_lt_self (by omega) (by omega)

/-- The numeric value of a run of decimal digit characters. -/
def decVal (ds : List Char) : Nat :=
  ds.foldl (fun a c => 10 * a + (c.toNat - 48)) 0

theorem digitOf_spec (k : Nat) (h : k < 10) :
    (digitOf k).toNat = 48 + k ∧ decDigit (digitOf k) = true := by
  interval_cases k <;> exact ⟨by decide, by decide⟩

theorem natChars_unfold (n : Nat) :
    natChars n =
      (if n < 10 then [] else natChars (n / 10)) ++ [digitOf (n % 10)] := by
  rw [natChars]
  by_cases h : n < 10
  · simp only [if_pos h, dif_pos h, List.nil_append]
    have : n % 10 = n := Nat.mod_eq_of_lt h
    rw [this]
  · simp [h]

theorem natChars_ne_nil (n : Nat) : natChars n ≠ [] := by
  rw [natChars_unfold]; simp

theorem natChars_digits (n : Nat) : ∀ c ∈ natChars n, decDigit c = true := by
  induction n using Nat.strongRecOn with
  | _ n ih =>
    rw [natChars_unfold]
    intro c hc
    rcases List.mem_append.mp hc with h | h
    · by_cases h10 : n < 10
      · simp [h10] at h
      · simp only [if_neg h10] at h
        exact ih (n / 10) (Nat.div_lt_self (by omega) (by omega)) c h
    · rw [List.mem_singleton] at h
      subst h
      exact (digitOf_spec _ (Nat.mod_lt _ (by omega))).2

theorem decVal_append_digit (ds : List Char) (c : Char) :
    decVal (ds ++ [c]) = 10 * decVal ds + (c.toNat - 48) := by
  simp [decVal, List.foldl_append]

theorem decVal_natChars (n : Nat) : decVal (natChars n) = n := by
  induction n using Nat.strongRecOn with
  | _ n ih =>
    rw [natChars_unfold]
    by_cases h : n < 10
    · simp only [if_pos h, List.nil_append]
      have h0 : n % 10 = n := Nat.mod_eq_of_lt h
      have h1 := (digitOf_spec (n % 10) (Nat.mod_lt _ (by omega))).1
      simp only [decVal, List.foldl_cons, List.foldl_nil]
      omega
    · simp only [if_neg h]
      rw [decVal_append_digit, ih (n / 10) (Nat.div_lt_self (by omega) (by omega)),
        (digitOf_spec (n % 10) (Nat.mod_lt _ (by omega))).1]
      omega

/-- The digit run of a positive number starts with a nonzero digit, and the
    run of zero is the single zero digit. -/
theorem natChars_head (n : Nat) :
    ∃ c t, natChars n = c :: t ∧ decDigit c = true ∧
      (natChars n = [digitOf 0] ∨ c ≠ digitOf 0) := by
  induction n using Nat.strongRecOn with
  | _ n ih =>
    by_cases h : n < 10
    · refine ⟨digitOf n, [], by rw [natChars]; simp [h], (digitOf_spec n h).2, ?_⟩
      by_cases h0 : n = 0
      · subst h0; left; rw [natChars]; simp
      · right
        intro hc
        have := congrArg Char.toNat hc
        rw [(digitOf_spec n h).1, (digitOf_spec 0 (by omega)).1] at this
        omega
    · obtain ⟨c, t, hct, hd, hz⟩ := ih (n / 10) (Nat.div_lt_self (by omega) (by omega))
      refine ⟨c, t ++ [digitOf (n % 10)], ?_, hd, ?_⟩
      · rw [natChars_unfold, if_neg h, hct]; simp
      · right
        rcases hz with hz | hz
        · exfalso
          have hn10 : n / 10 = 0 := by
            have hv := decVal_natChars (n / 10)
            rw [hz] at hv
            simpa [decVal] using hv.symm
          omega
        · exact hz

/-! ### The JSON document model

Python json values as read and written by the tool. Integers and floats
are kept apart, as Python keeps int and float apart; a finite float is
kept in the exact decimal form that repr prints and json.load reads back
(optional sign, integer digits, optional fraction digits, optional
exponent with optional sign), and the non-finite floats are the NaN and
signed-Infinity constants json.dump writes and json.load reads. Objects
are ordered association lists with pairwise-distinct keys, as Python
dicts are; they preserve insertion order and json.dump writes keys in
that order. -/

inductive Json where
  | null
  | bool (b : Bool)
  | int (n : Int)
  | dec (neg : Bool) (ip : String) (fp : Option String)
      (ep : Option (Option Bool × String))
  | nan
  | inf (neg : Bool)
  | str (s : String)
  | arr (elems : List Json)
  | obj (members : List (String × Json))
deriving Repr, Inhabited

/-- Opening brace character, written by code point to keep it out of literals. -/
def lbrace : Char := Char.ofNat 0x7b

/-- Closing brace character. -/
def rbrace : Char := Char.ofNat 0x7d

/-- A printable BMP character. Kept as documentation of the character class
    earlier revisions restricted strings to; strings are now unrestricted. -/
def wfChar (c : Char) : Bool :=
  0x20 ≤ c.toNat && c.toNat < 0x10000

/-- A string all of whose characters are `wfChar`. -/
def wfStr (s : String) : Bool := s.data.all wfChar

/-- A canonical integer-part digit string of a float repr: nonempty digits,
    and no leading zero except for zero itself. -/
def okInt (ds : String) : Bool :=
  match ds.data with
  | [] => false
  | c :: t => decDigit c && t.all decDigit && (!(c == '0') || t.isEmpty)

/-- A fraction or exponent digit string of a float repr: nonempty digits. -/
def okFrac (ds : String) : Bool :=
  match ds.data with
  | [] => false
  | l => l.all decDigit

/-- An optional fraction part: when present, nonempty digits. -/
def okFracPart : Option String → Bool
  | none => true
  | some f => okFrac f

/-- An optional exponent part: when present, nonempty digits after the
    optional sign. -/
def okExpPart : Option (Option Bool × String) → Bool
  | none => true
  | some (_, es) => okFrac es

/-- Pairwise-distinct member keys, the invariant of every Python dict. -/
def keysDistinct : List (String × Json) → Bool
  | [] => true
  | (k, _) :: t => (t.all fun kv => !(kv.1 == k)) && keysDistinct t

mutual

/-- The structurally well-formed documents: every value a Python object can
    take under json.dump. A float literal is in the canonical shape repr
    prints (digits without a stray leading zero, a fraction or an exponent
    or both, nonempty digit runs), and every object's keys are pairwise
    distinct, as a dict's are. Strings are unrestricted. -/
def Json.wf : Json → Bool
  | .null => true
  | .bool _ => true
  | .int _ => true
  | .dec _ ip fp ep =>
    okInt ip && okFracPart fp && okExpPart ep && (fp.isSome || ep.isSome)
  | .nan => true
  | .inf _ => true
  | .str _ => true
  | .arr es => Json.wfItems es
  | .obj ms => keysDistinct ms && Json.wfMembers ms

def Json.wfItems : List Json → Bool
  | [] => true
  | x :: xs => x.wf && Json.wfItems xs

def Json.wfMembers : List (String × Json) → Bool
  | [] => true
  | (_, v) :: ms => v.wf && Json.wfMembers ms

end

/-! ### The writer: json.dump(state, handle, indent=2)

CPython with indent=2 prints every container item on its own line,
indented two spaces per nesting level, separators a bare comma and a
colon-space, and ensure_ascii escaping in strings: the two-character
escapes for the quote, the backslash and the five short control escapes,
a lowercase 4-digit \u escape for every other character outside the
printable ASCII range 0x20 to 0x7E, and a \u surrogate pair for every
character beyond 0xFFFF. A float is printed as repr prints it; the
non-finite floats print as NaN, Infinity and -Infinity (allow_nan is
left at its default). -/

/-- Lowercase hexadecimal digit character of a value below 16. -/
def hexChar (k : Nat) : Char :=
  if k < 10 then Char.ofNat (48 + k) else Char.ofNat (87 + k)

/-- The six-character lowercase unicode escape of a code point below 0x10000. -/
def uEsc (n : Nat) : List Char :=
  ['\\', 'u', hexChar (n / 4096 % 16), hexChar (n / 256 % 16),
   hexChar (n / 16 % 16), hexChar (n % 16)]

/-- Characters written for one string character under ensure_ascii. -/
def escChar (c : Char) : List Char :=
  if c == '"' then ['\\', '"']
  else if c == '\\' then ['\\', '\\']
  else if c == Char.ofNat 8 then ['\\', 'b']
  else if c == Char.ofNat 9 then ['\\', 't']
  else if c == Char.ofNat 10 then ['\\', 'n']
  else if c == Char.ofNat 12 then ['\\', 'f']
  else if c == Char.ofNat 13 then ['\\', 'r']
  else if c.toNat < 0x20 || (0x7f ≤ c.toNat && c.toNat < 0x10000) then
    uEsc c.toNat
  else if 0x10000 ≤ c.toNat then
    uEsc (0xD800 + (c.toNat - 0x10000) / 0x400)
      ++ uEsc (0xDC00 + (c.toNat - 0x10000) % 0x400)
  else [c]

/-- A whole string literal: quote, escaped characters, quote. -/
def strChars (s : String) : List Char :=
  '"' :: ((s.data.map escChar).flatten ++ ['"'])

/-- Characters of an integer: optional minus sign, then decimal digits. -/
def intChars (n : Int) : List Char :=
  if n < 0 then '-' :: natChars n.natAbs else natChars n.natAbs

/-- The exponent sign as printed: nothing, a plus, or a minus. -/
def signChars : Option Bool → List Char
  | none => []
  | some false => ['+']
  | some true => ['-']

/-- The fraction part as printed: nothing, or a dot and its digits. -/
def fracChars : Option String → List Char
  | none => []
  | some f => '.' :: f.data

/-- The exponent part as printed: nothing, or a lowercase e, the optional
    sign and the digits (repr always writes a sign; the reader also accepts
    the unsigned and uppercase forms and stores the sign it saw). -/
def expChars : Option (Option Bool × String) → List Char
  | none => []
  | some (sg, es) => 'e' :: (signChars sg ++ es.data)

/-- Characters of a float literal as repr prints it. -/
def decChars (neg : Bool) (ip : String) (fp : Option String)
    (ep : Option (Option Bool × String)) : List Char :=
  (if neg then ['-'] else []) ++ ip.data ++ (fracChars fp ++ expChars ep)

/-- A newline followed by the two-space indentation of nesting depth `d`. -/
def nlInd (d : Nat) : List Char := '\n' :: List.replicate (2 * d) ' '

mutual

/-- Characters json.dump(value, indent=2) writes for a value at depth `d`. -/
def emit : Json → Nat → List Char
  | .null, _ => ['n', 'u', 'l', 'l']
  | .bool true, _ => ['t', 'r', 'u', 'e']
  | .bool false, _ => ['f', 'a', 'l', 's', 'e']
  | .int n, _ => intChars n
  | .dec neg ip fp ep, _ => decChars neg ip fp ep
  | .nan, _ => ['N', 'a', 'N']
  | .inf false, _ => ['I', 'n', 'f', 'i', 'n', 'i', 't', 'y']
  | .inf true, _ => '-' :: ['I', 'n', 'f', 'i', 'n', 'i', 't', 'y']
  | .str s, _ => strChars s
  | .arr [], _ => ['[', ']']
  | .arr (x :: xs), d => '[' :: (emitItems (x :: xs) (d + 1) ++ nlInd d ++ [']'])
  | .obj [], _ => [lbrace, rbrace]
  | .obj (m :: ms), d => lbrace :: (emitMembers (m :: ms) (d + 1) ++ nlInd d ++ [rbrace])

/-- Array items, each on its own indented line, comma-separated. -/
def emitItems : List Json → Nat → List Char
  | [], _ => []
  | x :: xs, d => nlInd d ++ emit x d ++ emitSeps xs d

def emitSeps : List Json → Nat → List Char
  | [], _ => []
  | x :: xs, d => ',' :: (nlInd d ++ emit x d ++ emitSeps xs d)

/-- Object members, each on its own indented line as key colon space value. -/
def emitMembers : List (String × Json) → Nat → List Char
  | [], _ => []
  | (k, v) :: ms, d => nlInd d ++ strChars k ++ ':' :: ' ' :: (emit v d ++ emitMSeps ms d)

def emitMSeps : List (String × Json) → Nat → List Char
  | [], _ => []
  | (k, v) :: ms, d => ',' :: (nlInd d ++ strChars k ++ ':' :: ' ' :: (emit v d ++ emitMSeps ms d))

end

/-- The file text json.dump(state, handle, indent=2) writes. -/
def json_dumps (j : Json) : String := String.mk (emit j 0)

/-! ### The reader: json.load(handle)

An executable model of the CPython strict-mode decoder: the literals and
the NaN, Infinity and -Infinity constants, strings with all escapes,
BMP \u escapes and \u surrogate pairs, numbers with optional fraction
and optional exponent, arrays, and objects with dict semantics (a
repeated key keeps its first position and its last value), with
arbitrary whitespace between tokens and the whole-input check json.load
performs at the end. The one divergence: a lone \u surrogate escape,
which json.load turns into a non-scalar Python string no Lean String can
hold, is a decode error here. -/

def skipWs : List Char → List Char
  | [] => []
  | c :: cs => if jsonWs c then skipWs cs else c :: cs

/-- Value of one hexadecimal digit character, either case. -/
def hexVal (c : Char) : Option Nat :=
  if 48 ≤ c.toNat && c.toNat ≤ 57 then some (c.toNat - 48)
  else if 97 ≤ c.toNat && c.toNat ≤ 102 then some (c.toNat - 87)
  else if 65 ≤ c.toNat && c.toNat ≤ 70 then some (c.toNat - 55)
  else none

/-- The character a two-character escape denotes. -/
def unEsc (c : Char) : Option Char :=
  if c == 't' then some (Char.ofNat 9)
  else if c == 'r' then some (Char.ofNat 13)
  else if c == 'n' then some (Char.ofNat 10)
  else if c == 'f' then some (Char.ofNat 12)
  else if c == 'b' then some (Char.ofNat 8)
  else if c == '/' then some '/'
  else if c == '\\' then some '\\'
  else if c == '"' then some '"'
  else none

/-- Prepend a decoded character to the string a continuation decodes. -/
def consFst (c : Char) : Option (List Char × List Char) → Option (List Char × List Char)
  | some (s, r) => some (c :: s, r)
  | none => none

/-- The value of four hexadecimal digit characters, big-endian. -/
def hex4 (e1 e2 e3 e4 : Char) : Option Nat :=
  match hexVal e1, hexVal e2, hexVal e3, hexVal e4 with
  | some a, some b, some c, some d => some (((a * 16 + b) * 16 + c) * 16 + d)
  | _, _, _, _ => none

/-- Continue a \u escape whose four hex digits gave the value `n`: a high
    surrogate must be followed by a low-surrogate escape (the pair combines
    into one astral character, as CPython combines it), a lone low
    surrogate is an error, anything else is the character itself. Returns
    the decoded character and the characters after the whole escape. -/
def uEscCont (n : Nat) (rest3 : List Char) : Option (Char × List Char) :=
  if 0xD800 ≤ n ∧ n < 0xDC00 then
    match rest3 with
    | b1 :: u2 :: e1 :: e2 :: e3 :: e4 :: rest4 =>
      if b1 == '\\' && u2 == 'u' then
        match hex4 e1 e2 e3 e4 with
        | some w =>
          if 0xDC00 ≤ w ∧ w < 0xE000 then
            some (Char.ofNat (0x10000 + (n - 0xD800) * 0x400 + (w - 0xDC00)),
              rest4)
          else none
        | none => none
      else none
    | _ => none
  else if 0xDC00 ≤ n ∧ n < 0xE000 then none
  else if n.isValidChar then some (Char.ofNat n, rest3)
  else none

/-- One \u escape after its backslash-u marker: four hex digits, then
    `uEscCont`. -/
def uEscStep : List Char → Option (Char × List Char)
  | h1 :: h2 :: h3 :: h4 :: rest3 =>
    match hex4 h1 h2 h3 h4 with
    | some n => uEscCont n rest3
    | none => none
  | _ => none

/-- Decode a string body after its opening quote, up to the closing quote.
    Strict mode: a raw control character inside a string is an error.
    Structural on `fuel`; callers pass more fuel than the input length,
    which always suffices as every step consumes at least one character. -/
def readStr : Nat → List Char → Option (List Char × List Char)
  | 0, _ => none
  | fuel + 1, cs =>
    match cs with
    | [] => none
    | c :: rest =>
      if c == '"' then some ([], rest)
      else if c == '\\' then
        match rest with
        | [] => none
        | e :: rest2 =>
          if e == 'u' then
            match uEscStep rest2 with
            | some (ch, rest3) => consFst ch (readStr fuel rest3)
            | none => none
          else
            match unEsc e with
            | some ch => consFst ch (readStr fuel rest2)
            | none => none
      else if c.toNat < 0x20 then none
      else consFst c (readStr fuel rest)

/-- The longest digit prefix and the remainder. -/
def takeDigits : List Char → List Char × List Char
  | [] => ([], [])
  | c :: cs =>
    if decDigit c then
      let (ds, r) := takeDigits cs
      (c :: ds, r)
    else ([], c :: cs)

/-- A legal JSON integer-part digit run: no leading zero except zero itself. -/
def okLead : List Char → Bool
  | [] => false
  | c :: t => decDigit c && (!(c == '0') || t.isEmpty)

/-- The optional fraction of a number: a dot and a nonempty digit run, or
    nothing consumed (the regex group is optional, so a dot without digits
    is left unconsumed, as CPython leaves it). -/
def readFrac (cs : List Char) : Option String × List Char :=
  match cs with
  | c :: cs1 =>
    if c == '.' then
      match takeDigits cs1 with
      | ([], _) => (none, cs)
      | (fs, r) => (some (String.mk fs), r)
    else (none, cs)
  | [] => (none, cs)

/-- The digits of an exponent whose marker and sign were consumed: a
    nonempty run, or the whole exponent is left unconsumed. -/
def expDigits (orig : List Char) (sg : Option Bool) (t : List Char) :
    Option (Option Bool × String) × List Char :=
  match takeDigits t with
  | ([], _) => (none, orig)
  | (es, r) => (some (sg, String.mk es), r)

/-- The optional exponent of a number: e or E, an optional sign, and a
    nonempty digit run; otherwise nothing is consumed. -/
def readExp (cs : List Char) : Option (Option Bool × String) × List Char :=
  match cs with
  | e :: cs1 =>
    if e == 'e' || e == 'E' then
      match cs1 with
      | s1 :: t1 =>
        if s1 == '+' then expDigits cs (some false) t1
        else if s1 == '-' then expDigits cs (some true) t1
        else expDigits cs none cs1
      | [] => (none, cs)
    else (none, cs)
  | [] => (none, cs)

/-- Decode a number: optional sign, integer digits, optional fraction,
    optional exponent; an int when both options are absent, a float
    otherwise, as parse_float/parse_int dispatch. -/
def readNum (cs : List Char) : Option (Json × List Char) :=
  let neg : Bool := cs.head? == some '-'
  let cs1 := if neg then cs.tail else cs
  let (ds, cs2) := takeDigits cs1
  if okLead ds then
    match readFrac cs2 with
    | (fp, cs3) =>
      match readExp cs3 with
      | (ep, cs4) =>
        if fp.isSome || ep.isSome then
          some (.dec neg (String.mk ds) fp ep, cs4)
        else
          some (.int (if neg then -(decVal ds : Int) else (decVal ds : Int)), cs2)
  else none

/-- Ordered-association-list lookup: the stored value at a key. -/
def alookup : List (String × Json) → String → Option Json
  | [], _ => none
  | (k, v) :: t, key => if k = key then some v else alookup t key

/-- Replace the value at a key, keeping the insertion order (the in-place
    mutation of a Python dict entry). -/
def aupdate : List (String × Json) → String → Json → List (String × Json)
  | [], _, _ => []
  | (k, v) :: t, key, nv =>
    if k = key then (k, nv) :: t else (k, v) :: aupdate t key nv

/-- dict insertion: a known key keeps its position and takes the new value,
    a new key goes to the end. -/
def dictInsert (acc : List (String × Json)) (k : String) (v : Json) :
    List (String × Json) :=
  if (alookup acc k).isSome then aupdate acc k v else acc ++ [(k, v)]

/-- dict(pairs): Python dict construction over the member list the decoder
    saw, a repeated key keeping its first position and its last value. -/
def dedupLast (ms : List (String × Json)) : List (String × Json) :=
  ms.foldl (fun acc kv => dictInsert acc kv.1 kv.2) []

mutual

/-- Decode one value after optional whitespace. Structural on `fuel`; the
    reader entry point passes more fuel than the input length, which the
    round-trip theorems show is always enough. -/
def readVal : Nat → List Char → Option (Json × List Char)
  | 0, _ => none
  | fuel + 1, cs =>
    match skipWs cs with
    | [] => none
    | c :: r =>
      if c == 'n' then
        match r with
        | 'u' :: 'l' :: 'l' :: r2 => some (.null, r2)
        | _ => none
      else if c == 't' then
        match r with
        | 'r' :: 'u' :: 'e' :: r2 => some (.bool true, r2)
        | _ => none
      else if c == 'f' then
        match r with
        | 'a' :: 'l' :: 's' :: 'e' :: r2 => some (.bool false, r2)
        | _ => none
      else if c == '"' then
        match readStr (r.length + 1) r with
        | some (s, r2) => some (.str (String.mk s), r2)
        | none => none
      else if c == '[' then
        match skipWs r with
        | [] => none
        | c2 :: r2 =>
          if c2 == ']' then some (.arr [], r2)
          else
            match readItems fuel (c2 :: r2) with
            | some (vs, r3) => some (.arr vs, r3)
            | none => none
      else if c == lbrace then
        match skipWs r with
        | [] => none
        | c2 :: r2 =>
          if c2 == rbrace then some (.obj [], r2)
          else
            match readMembers fuel (c2 :: r2) with
            | some (ms, r3) => some (.obj (dedupLast ms), r3)
            | none => none
      else if c == 'N' then
        match r with
        | 'a' :: 'N' :: r2 => some (.nan, r2)
        | _ => none
      else if c == 'I' then
        match r with
        | 'n' :: 'f' :: 'i' :: 'n' :: 'i' :: 't' :: 'y' :: r2 =>
          some (.inf false, r2)
        | _ => none
      else if c == '-' then
        match r with
        | r1 :: rr =>
          if r1 == 'I' then
            match rr with
            | 'n' :: 'f' :: 'i' :: 'n' :: 'i' :: 't' :: 'y' :: r2 =>
              some (.inf true, r2)
            | _ => none
          else readNum (c :: r)
        | [] => readNum (c :: r)
      else if decDigit c then readNum (c :: r)
      else none

/-- Decode one or more comma-separated array items up to the closing bracket. -/
def readItems : Nat → List Char → Option (List Json × List Char)
  | 0, _ => none
  | fuel + 1, cs =>
    match readVal fuel cs with
    | none => none
    | some (v, r) =>
      match skipWs r with
      | [] => none
      | c2 :: r2 =>
        if c2 == ',' then
          match readItems fuel r2 with
          | some (vs, r3) => some (v :: vs, r3)
          | none => none
        else if c2 == ']' then some ([v], r2)
        else none

/-- Decode one or more comma-separated members up to the closing brace. -/
def readMembers : Nat → List Char → Option (List (String × Json) × List Char)
  | 0, _ => none
  | fuel + 1, cs =>
    match skipWs cs with
    | [] => none
    | c1 :: r =>
      if c1 == '"' then
        match readStr (r.length + 1) r with
        | none => none
        | some (k, r1) =>
          match skipWs r1 with
          | [] => none
          | c2 :: r2 =>
            if c2 == ':' then
              match readVal fuel r2 with
              | none => none
              | some (v, r3) =>
                match skipWs r3 with
                | [] => none
                | c4 :: r4 =>
                  if c4 == ',' then
                    match readMembers fuel r4 with
                    | some (ms, r5) => some ((String.mk k, v) :: ms, r5)
                    | none => none
                  else if c4 == rbrace then some ([(String.mk k, v)], r4)
                  else none
            else none
      else none

end

/-- The value json.load(handle) returns for a file text, or `none` where it
    raises json.JSONDecodeError: a full document with nothing but
    whitespace after it. -/
def json_loads (s : String) : Option Json :=
  match readVal (s.data.length + 1) s.data with
  | some (j, r) => if (skipWs r).isEmpty then some j else none
  | none => none

/-! ### Round trip, part 1: whitespace, numbers and strings -/

theorem strMk_data (s : String) : String.mk s.data = s := rfl

theorem skipWs_not_ws {c : Char} (h : jsonWs c = false) (cs : List Char) :
    skipWs (c :: cs) = c :: cs := by
  simp [skipWs, h]

theorem skipWs_ws_append {ws : List Char} (h : ∀ c ∈ ws, jsonWs c = true)
    (cs : List Char) : skipWs (ws ++ cs) = skipWs cs := by
  induction ws with
  | nil => simp
  | cons c t ih =>
      have hc : jsonWs c = true := h c (by simp)
      simp only [List.cons_append, skipWs, hc, if_pos]
      exact ih fun x hx => h x (by simp [hx])

theorem nlInd_ws (d : Nat) : ∀ c ∈ nlInd d, jsonWs c = true := by
  intro c hc
  rcases List.mem_cons.mp hc with h | h
  · subst h; decide
  · rw [List.eq_of_mem_replicate h]; decide

theorem skipWs_nlInd (d : Nat) (cs : List Char) :
    skipWs (nlInd d ++ cs) = skipWs cs :=
  skipWs_ws_append (nlInd_ws d) cs

/-- The tail that may legally follow a printed number: nothing, or a
    character that extends neither its digits nor its fraction nor starts
    an exponent. -/
def numStop : List Char → Bool
  | [] => true
  | c :: _ => !(decDigit c || c == '.' || c == 'e' || c == 'E')

theorem numStop_head {c : Char} {t : List Char} (h : numStop (c :: t) = true) :
    decDigit c = false ∧ c ≠ '.' ∧ c ≠ 'e' ∧ c ≠ 'E' := by
  simp only [numStop, Bool.not_eq_true', Bool.or_eq_false_iff, beq_eq_false_iff_ne] at h
  exact ⟨h.1.1.1, h.1.1.2, h.1.2, h.2⟩

theorem takeDigits_stop {cs : List Char} (h : numStop cs = true) :
    takeDigits cs = ([], cs) := by
  match cs with
  | [] => rfl
  | c :: t => simp [takeDigits, (numStop_head h).1]

theorem takeDigits_run {digits : List Char}
    (hds : ∀ c ∈ digits, decDigit c = true) {tl : List Char}
    (htl : takeDigits tl = ([], tl)) :
    takeDigits (digits ++ tl) = (digits, tl) := by
  induction digits with
  | cons d ts ih =>
      have hd := hds d (by simp)
      have hts := ih fun x hx => hds x (by simp [hx])
      simp [takeDigits, hd, hts]
  | nil => simpa using htl

theorem okLead_natChars (n : Nat) : okLead (natChars n) = true := by
  obtain ⟨c, t, hct, hd, hz⟩ := natChars_head n
  rw [hct]
  rcases hz with hz | hz
  · rw [hct] at hz
    have hc : c = digitOf 0 := by
      injection hz
    have ht : t = [] := by
      injection hz with _ h2
    subst hc; subst ht
    decide
  · have hne : (c == '0') = false := by
      simp only [beq_eq_false_iff_ne]
      exact hz
    simp [okLead, hd, hne]

theorem digit_not_stop {c : Char} (h : decDigit c = true) :
    c ≠ '.' ∧ c ≠ '-' ∧ jsonWs c = false := by
  have h1 : c ≠ '.' := by intro hc; subst hc; exact absurd h (by decide)
  have h2 : c ≠ '-' := by intro hc; subst hc; exact absurd h (by decide)
  have h3 : jsonWs c = false := by
    simp only [jsonWs, Bool.or_eq_false_iff, beq_eq_false_iff_ne]
    refine ⟨⟨⟨?_, ?_⟩, ?_⟩, ?_⟩ <;> (intro hc; subst hc; exact absurd h (by decide))
  exact ⟨h1, h2, h3⟩

/-- A digit never equals a named non-digit character. -/
theorem digit_beq_false {c d : Char} (hc : decDigit c = true)
    (hd : decDigit d = false) : (c == d) = false := by
  rw [beq_eq_false_iff_ne]
  intro he
  subst he
  rw [hc] at hd
  cases hd

theorem readFrac_stop {cs : List Char} (h : numStop cs = true) :
    readFrac cs = (none, cs) := by
  match cs with
  | [] => rfl
  | c :: t =>
      obtain ⟨-, hdot, -, -⟩ := numStop_head h
      simp only [readFrac]
      rw [if_neg (by simp [hdot])]

theorem readExp_stop {cs : List Char} (h : numStop cs = true) :
    readExp cs = (none, cs) := by
  match cs with
  | [] => rfl
  | c :: t =>
      obtain ⟨-, -, he, hE⟩ := numStop_head h
      simp only [readExp]
      rw [if_neg (by simp [he, hE])]

/-- Reading back a printed integer: sign and digit run recovered exactly. -/
theorem readNum_intChars (n : Int) {rest : List Char} (hr : numStop rest = true) :
    readNum (intChars n ++ rest) = some (.int n, rest) := by
  by_cases hn : n < 0
  · have harg : intChars n ++ rest = '-' :: (natChars n.natAbs ++ rest) := by
      simp [intChars, hn]
    rw [harg]
    simp only [readNum, List.head?_cons, List.tail_cons, beq_self_eq_true,
      eq_self_iff_true, if_true,
      takeDigits_run (natChars_digits n.natAbs) (takeDigits_stop hr),
      okLead_natChars, readFrac_stop hr, readExp_stop hr, Option.isSome_none,
      Bool.or_self, Bool.false_eq_true, if_false, decVal_natChars]
    have hv2 : -((n.natAbs : Nat) : Int) = n := by omega
    rw [hv2]
  · have harg : intChars n ++ rest = natChars n.natAbs ++ rest := by
      simp [intChars, hn]
    obtain ⟨c0, t0, h0, hd0, _⟩ := natChars_head n.natAbs
    obtain ⟨_, hminus, _⟩ := digit_not_stop hd0
    rw [harg]
    have hsign : ((natChars n.natAbs ++ rest).head? == some '-') = false := by
      rw [h0, List.cons_append, List.head?_cons]
      simp [hminus]
    simp only [readNum, hsign, Bool.false_eq_true, if_false,
      takeDigits_run (natChars_digits n.natAbs) (takeDigits_stop hr),
      okLead_natChars, eq_self_iff_true, if_true, readFrac_stop hr,
      readExp_stop hr, Option.isSome_none, Bool.or_self, decVal_natChars]
    have hv2 : ((n.natAbs : Nat) : Int) = n := by omega
    rw [hv2]

/-- The printed exponent part consumes no digits, no dot: the characters
    after it are opaque to takeDigits and readFrac. -/
theorem expChars_opaque (ep : Option (Option Bool × String)) {rest : List Char}
    (hr : numStop rest = true) :
    takeDigits (expChars ep ++ rest) = ([], expChars ep ++ rest) ∧
      readFrac (expChars ep ++ rest) = (none, expChars ep ++ rest) := by
  cases ep with
  | none =>
      simp only [expChars, List.nil_append]
      exact ⟨takeDigits_stop hr, readFrac_stop hr⟩
  | some pe =>
      obtain ⟨sg, es⟩ := pe
      constructor
      · simp [expChars, takeDigits,
          (by decide : decDigit ('e' : Char) = false)]
      · simp only [expChars, List.cons_append, readFrac]
        rw [if_neg (by decide)]

/-- Reading back a printed fraction part. -/
theorem readFrac_fracChars (fp : Option String) (hfp : okFracPart fp = true)
    (tl2 : List Char) (htd : takeDigits tl2 = ([], tl2))
    (hrf : readFrac tl2 = (none, tl2)) :
    readFrac (fracChars fp ++ tl2) = (fp, tl2) := by
  cases fp with
  | none => simpa [fracChars] using hrf
  | some f =>
      have hfd : ∀ c ∈ f.data, decDigit c = true := by
        intro c hc
        match hfps : f.data with
        | [] => rw [hfps] at hc; simp at hc
        | c0 :: t =>
            simp only [okFracPart, okFrac, hfps, List.all_eq_true] at hfp
            rw [hfps] at hc
            exact hfp c hc
      obtain ⟨c0, t0, h0⟩ : ∃ c0 t0, f.data = c0 :: t0 := by
        match hfps : f.data with
        | [] => simp [okFracPart, okFrac, hfps] at hfp
        | c0 :: t => exact ⟨c0, t, rfl⟩
      simp only [fracChars, List.cons_append, readFrac]
      rw [if_pos (by rfl)]
      rw [takeDigits_run hfd htd, h0]
      simp only []
      rw [← h0, strMk_data]

/-- Reading back a printed exponent part. -/
theorem readExp_expChars (ep : Option (Option Bool × String))
    (hep : okExpPart ep = true) {rest : List Char} (hr : numStop rest = true) :
    readExp (expChars ep ++ rest) = (ep, rest) := by
  cases ep with
  | none =>
      simp only [expChars, List.nil_append]
      exact readExp_stop hr
  | some pe =>
      obtain ⟨sg, es⟩ := pe
      have hed : ∀ c ∈ es.data, decDigit c = true := by
        intro c hc
        match hes : es.data with
        | [] => rw [hes] at hc; simp at hc
        | c0 :: t =>
            simp only [okExpPart, okFrac, hes, List.all_eq_true] at hep
            rw [hes] at hc
            exact hep c hc
      obtain ⟨c0, t0, h0⟩ : ∃ c0 t0, es.data = c0 :: t0 := by
        match hes : es.data with
        | [] => simp [okExpPart, okFrac, hes] at hep
        | c0 :: t => exact ⟨c0, t, rfl⟩
      have hd0 : decDigit c0 = true := hed c0 (by rw [h0]; simp)
      have hrun : takeDigits (es.data ++ rest) = (es.data, rest) :=
        takeDigits_run hed (takeDigits_stop hr)
      cases sg with
      | none =>
          have harg : expChars (some (none, es)) ++ rest
              = 'e' :: (c0 :: (t0 ++ rest)) := by
            simp [expChars, signChars, h0]
          rw [harg]
          simp only [readExp]
          rw [if_pos (by rfl)]
          try simp only []
          rw [if_neg (by simp [digit_beq_false hd0 (by decide : decDigit '+' = false)]),
            if_neg (by simp [digit_beq_false hd0 (by decide : decDigit '-' = false)])]
          simp only [expDigits]
          rw [show (c0 :: (t0 ++ rest)) = es.data ++ rest from by simp [h0], hrun, h0]
          simp only []
          rw [← h0, strMk_data]
      | some sb =>
          have harg : expChars (some (some sb, es)) ++ rest
              = 'e' :: ((if sb then '-' else '+') :: (es.data ++ rest)) := by
            cases sb <;> simp [expChars, signChars]
          rw [harg]
          simp only [readExp]
          rw [if_pos (by rfl)]
          try simp only []
          cases sb with
          | false =>
              rw [if_pos (by rfl)]
              simp only [expDigits]
              rw [hrun, h0]
              simp only []
              rw [← h0, strMk_data]
          | true =>
              rw [if_neg (by decide), if_pos (by rfl)]
              simp only [expDigits]
              rw [hrun, h0]
              simp only []
              rw [← h0, strMk_data]

/-- Reading back a printed float literal recovers its exact shape. -/
theorem readNum_dec (neg : Bool) (ip : String) (fp : Option String)
    (ep : Option (Option Bool × String)) (hip : okInt ip = true)
    (hfp : okFracPart fp = true) (hep : okExpPart ep = true)
    (hne : (fp.isSome || ep.isSome) = true)
    {rest : List Char} (hr : numStop rest = true) :
    readNum (decChars neg ip fp ep ++ rest) = some (.dec neg ip fp ep, rest) := by
  have hipd : ∀ c ∈ ip.data, decDigit c = true := by
    intro c hc
    match hips : ip.data with
    | [] => rw [hips] at hc; simp at hc
    | c0 :: t =>
        rw [hips] at hc
        simp only [okInt, hips, Bool.and_eq_true, List.all_eq_true] at hip
        rcases List.mem_cons.mp hc with h | h
        · subst h; exact hip.1.1
        · exact hip.1.2 c h
  have hlead : okLead ip.data = true := by
    match hips : ip.data with
    | [] => simp [okInt, hips] at hip
    | c0 :: t =>
        simp only [okInt, hips, Bool.and_eq_true] at hip
        simp [okLead, hip.1.1, hip.2]
  have hopq := expChars_opaque ep hr
  have htl : takeDigits (fracChars fp ++ (expChars ep ++ rest))
      = ([], fracChars fp ++ (expChars ep ++ rest)) := by
    cases fp with
    | none => simpa [fracChars] using hopq.1
    | some f =>
        simp [fracChars, takeDigits,
          (by decide : decDigit ('.' : Char) = false)]
  have htd : takeDigits (ip.data ++ (fracChars fp ++ (expChars ep ++ rest)))
      = (ip.data, fracChars fp ++ (expChars ep ++ rest)) :=
    takeDigits_run hipd htl
  have hrf : readFrac (fracChars fp ++ (expChars ep ++ rest))
      = (fp, expChars ep ++ rest) := by
    cases fp with
    | none => simpa [fracChars] using hopq.2
    | some f => exact readFrac_fracChars (some f) hfp _ hopq.1 hopq.2
  have hre : readExp (expChars ep ++ rest) = (ep, rest) :=
    readExp_expChars ep hep hr
  cases neg with
  | true =>
      have harg : decChars true ip fp ep ++ rest
          = '-' :: (ip.data ++ (fracChars fp ++ (expChars ep ++ rest))) := by
        simp [decChars]
      rw [harg]
      simp only [readNum, List.head?_cons, List.tail_cons, beq_self_eq_true,
        eq_self_iff_true, if_true, htd, hrf, hre, hlead, hne, strMk_data]
  | false =>
      obtain ⟨c0, t0, h0⟩ : ∃ c0 t0, ip.data = c0 :: t0 := by
        match hips : ip.data with
        | [] => simp [okInt, hips] at hip
        | c0 :: t => exact ⟨c0, t, rfl⟩
      have hd0 : decDigit c0 = true := hipd c0 (by rw [h0]; simp)
      obtain ⟨_, hminus, _⟩ := digit_not_stop hd0
      have harg : decChars false ip fp ep ++ rest
          = ip.data ++ (fracChars fp ++ (expChars ep ++ rest)) := by
        simp [decChars]
      rw [harg]
      have hsign : ((ip.data ++ (fracChars fp ++ (expChars ep ++ rest))).head?
          == some '-') = false := by
        rw [h0, List.cons_append, List.head?_cons]
        simp [hminus]
      simp only [readNum, hsign, Bool.false_eq_true, if_false, htd, hrf, hre,
        hlead, eq_self_iff_true, if_true, hne, strMk_data]

theorem hexVal_hexChar (k : Nat) (h : k < 16) : hexVal (hexChar k) = some k := by
  interval_cases k <;> decide

theorem char_beq_false_of_ctrl {c : Char} {k : Nat} (h : 0x20 ≤ c.toNat)
    (hk : (Char.ofNat k).toNat < 0x20) : (c == Char.ofNat k) = false := by
  simp only [beq_eq_false_iff_ne]
  intro he
  rw [he] at h
  omega

/-- hex4 reads back the four hex digits of a code point below 0x10000. -/
theorem hex4_hexChar (n : Nat) (h : n < 0x10000) :
    hex4 (hexChar (n / 4096 % 16)) (hexChar (n / 256 % 16))
      (hexChar (n / 16 % 16)) (hexChar (n % 16)) = some n := by
  have h1 := hexVal_hexChar (n / 4096 % 16) (Nat.mod_lt _ (by omega))
  have h2 := hexVal_hexChar (n / 256 % 16) (Nat.mod_lt _ (by omega))
  have h3 := hexVal_hexChar (n / 16 % 16) (Nat.mod_lt _ (by omega))
  have h4 := hexVal_hexChar (n % 16) (Nat.mod_lt _ (by omega))
  have hval : ((n / 4096 % 16 * 16 + n / 256 % 16) * 16 + n / 16 % 16) * 16
      + n % 16 = n := by omega
  simp only [hex4, h1, h2, h3, h4, hval]

/-- One-step unfolding of the string reader at successor fuel
    (definitional). -/
theorem readStr_step (fuel : Nat) (cs : List Char) :
    readStr (fuel + 1) cs =
      (match cs with
       | [] => none
       | c :: rest =>
         if c == '"' then some ([], rest)
         else if c == '\\' then
           match rest with
           | [] => none
           | e :: rest2 =>
             if e == 'u' then
               match uEscStep rest2 with
               | some (ch, rest3) => consFst ch (readStr fuel rest3)
               | none => none
             else
               match unEsc e with
               | some ch => consFst ch (readStr fuel rest2)
               | none => none
         else if c.toNat < 0x20 then none
         else consFst c (readStr fuel rest)) := rfl

/-- uEscStep reads back the four hex digits of a printed BMP escape. -/
theorem uEscStep_bmp (c : Char) (hc : c.toNat < 0x10000) (rest : List Char) :
    uEscStep (hexChar (c.toNat / 4096 % 16) :: hexChar (c.toNat / 256 % 16)
      :: hexChar (c.toNat / 16 % 16) :: hexChar (c.toNat % 16) :: rest)
      = some (c, rest) := by
  have hvalid : Nat.isValidChar c.toNat := c.valid
  have hns : ¬(0xD800 ≤ c.toNat ∧ c.toNat < 0xDC00) := by
    rcases hvalid with h | h <;> omega
  have hns2 : ¬(0xDC00 ≤ c.toNat ∧ c.toNat < 0xE000) := by
    rcases hvalid with h | h <;> omega
  simp only [uEscStep, hex4_hexChar c.toNat hc, uEscCont, if_neg hns,
    if_neg hns2, hvalid, if_true, eq_self_iff_true, Char.ofNat_toNat]

/-- uEscStep reads back a printed surrogate pair. -/
theorem uEscStep_pair (n w : Nat) (hn1 : 0xD800 ≤ n) (hn2 : n < 0xDC00)
    (hw1 : 0xDC00 ≤ w) (hw2 : w < 0xE000) (rest : List Char) :
    uEscStep (hexChar (n / 4096 % 16) :: hexChar (n / 256 % 16)
      :: hexChar (n / 16 % 16) :: hexChar (n % 16)
      :: '\\' :: 'u' :: hexChar (w / 4096 % 16) :: hexChar (w / 256 % 16)
      :: hexChar (w / 16 % 16) :: hexChar (w % 16) :: rest)
      = some (Char.ofNat (0x10000 + (n - 0xD800) * 0x400 + (w - 0xDC00)),
          rest) := by
  simp only [uEscStep, hex4_hexChar n (by omega), uEscCont,
    if_pos (show 0xD800 ≤ n ∧ n < 0xDC00 from ⟨hn1, hn2⟩),
    (by decide : (('\\' == '\\') && ('u' == 'u')) = true), if_true,
    hex4_hexChar w (by omega),
    if_pos (show 0xDC00 ≤ w ∧ w < 0xE000 from ⟨hw1, hw2⟩)]

/-- Reading a printed unicode escape recovers the escaped character. -/
theorem readStr_uEsc (c : Char) (hc : c.toNat < 0x10000) (rest : List Char)
    (f : Nat) :
    readStr (f + 1) (uEsc c.toNat ++ rest) = consFst c (readStr f rest) := by
  simp only [uEsc, List.cons_append, List.nil_append]
  rw [readStr_step]
  simp only [(by decide : ('\\' == '"') = false), (by decide : ('\\' == '\\') = true),
    (by decide : ('u' == 'u') = true), Bool.false_eq_true, if_false,
    eq_self_iff_true, if_true, uEscStep_bmp c hc rest]

/-- Reading back a printed surrogate pair combines it into one character. -/
theorem readStr_surPair (n w : Nat) (hn1 : 0xD800 ≤ n) (hn2 : n < 0xDC00)
    (hw1 : 0xDC00 ≤ w) (hw2 : w < 0xE000) (rest : List Char) (f : Nat) :
    readStr (f + 1) (uEsc n ++ (uEsc w ++ rest))
      = consFst (Char.ofNat (0x10000 + (n - 0xD800) * 0x400 + (w - 0xDC00)))
          (readStr f rest) := by
  simp only [uEsc, List.cons_append, List.nil_append]
  rw [readStr_step]
  simp only [(by decide : ('\\' == '"') = false), (by decide : ('\\' == '\\') = true),
    (by decide : ('u' == 'u') = true), Bool.false_eq_true, if_false,
    eq_self_iff_true, if_true, uEscStep_pair n w hn1 hn2 hw1 hw2 rest]

/-- Reading a printed surrogate pair recovers the astral character. -/
theorem readStr_astral (c : Char) (hc : 0x10000 ≤ c.toNat) (rest : List Char)
    (f : Nat) :
    readStr (f + 1) (uEsc (0xD800 + (c.toNat - 0x10000) / 0x400)
        ++ (uEsc (0xDC00 + (c.toNat - 0x10000) % 0x400) ++ rest))
      = consFst c (readStr f rest) := by
  have hvalid : Nat.isValidChar c.toNat := c.valid
  have hub : c.toNat < 0x110000 := by rcases hvalid with h | h <;> omega
  have hmod := Nat.mod_lt (c.toNat - 0x10000) (show 0 < 0x400 by omega)
  have key := readStr_surPair (0xD800 + (c.toNat - 0x10000) / 0x400)
    (0xDC00 + (c.toNat - 0x10000) % 0x400) (by omega) (by omega) (by omega)
    (by omega) rest f
  rw [key]
  have hcomb : 0x10000 + (0xD800 + (c.toNat - 0x10000) / 0x400 - 0xD800) * 0x400
      + (0xDC00 + (c.toNat - 0x10000) % 0x400 - 0xDC00) = c.toNat := by omega
  rw [hcomb, Char.ofNat_toNat]

/-- Reading one escaped character undoes the ensure_ascii escaping, for
    every character. -/
theorem readStr_escChar (c : Char) (rest : List Char) (f : Nat) :
    readStr (f + 1) (escChar c ++ rest) = consFst c (readStr f rest) := by
  by_cases hq : c = '"'
  · subst hq
    simp only [escChar, (by decide : (('"' : Char) == '"') = true), if_true,
      List.cons_append, List.nil_append]
    rw [readStr_step]
    simp only [(by decide : ('\\' == '"') = false), (by decide : ('\\' == '\\') = true),
      (by decide : ('"' == 'u') = false), Bool.false_eq_true, if_false,
      eq_self_iff_true, if_true, unEsc,
      (by decide : (('"' : Char) == 't') = false),
      (by decide : (('"' : Char) == 'r') = false),
      (by decide : (('"' : Char) == 'n') = false),
      (by decide : (('"' : Char) == 'f') = false),
      (by decide : (('"' : Char) == 'b') = false),
      (by decide : (('"' : Char) == '/') = false),
      (by decide : (('"' : Char) == '\\') = false),
      (by decide : (('"' : Char) == '"') = true)]
  by_cases hb : c = '\\'
  · subst hb
    simp only [escChar, (by decide : (('\\' : Char) == '"') = false),
      (by decide : (('\\' : Char) == '\\') = true), Bool.false_eq_true,
      if_false, if_true, List.cons_append, List.nil_append]
    rw [readStr_step]
    simp only [(by decide : ('\\' == '"') = false),
      (by decide : ('\\' == '\\') = true),
      (by decide : ('\\' == 'u') = false), Bool.false_eq_true, if_false,
      if_true, eq_self_iff_true, unEsc,
      (by decide : (('\\' : Char) == 't') = false),
      (by decide : (('\\' : Char) == 'r') = false),
      (by decide : (('\\' : Char) == 'n') = false),
      (by decide : (('\\' : Char) == 'f') = false),
      (by decide : (('\\' : Char) == 'b') = false),
      (by decide : (('\\' : Char) == '/') = false)]
  by_cases h8 : c = Char.ofNat 8
  · subst h8
    have he : escChar (Char.ofNat 8) = ['\\', 'b'] := by decide
    rw [he, List.cons_append, List.cons_append, List.nil_append, readStr_step]
    simp only [(by decide : ('\\' == '"') = false),
      (by decide : ('\\' == '\\') = true),
      (by decide : ('b' == 'u') = false), Bool.false_eq_true, if_false,
      if_true, unEsc,
      (by decide : ('b' == 't') = false), (by decide : ('b' == 'r') = false),
      (by decide : ('b' == 'n') = false), (by decide : ('b' == 'f') = false),
      (by decide : ('b' == 'b') = true)]
  by_cases h9 : c = Char.ofNat 9
  · subst h9
    have he : escChar (Char.ofNat 9) = ['\\', 't'] := by decide
    rw [he, List.cons_append, List.cons_append, List.nil_append, readStr_step]
    simp only [(by decide : ('\\' == '"') = false),
      (by decide : ('\\' == '\\') = true),
      (by decide : ('t' == 'u') = false), Bool.false_eq_true, if_false,
      if_true, unEsc, (by decide : ('t' == 't') = true)]
  by_cases h10 : c = Char.ofNat 10
  · subst h10
    have he : escChar (Char.ofNat 10) = ['\\', 'n'] := by decide
    rw [he, List.cons_append, List.cons_append, List.nil_append, readStr_step]
    simp only [(by decide : ('\\' == '"') = false),
      (by decide : ('\\' == '\\') = true),
      (by decide : ('n' == 'u') = false), Bool.false_eq_true, if_false,
      if_true, unEsc,
      (by decide : ('n' == 't') = false), (by decide : ('n' == 'r') = false),
      (by decide : ('n' == 'n') = true)]
  by_cases h12 : c = Char.ofNat 12
  · subst h12
    have he : escChar (Char.ofNat 12) = ['\\', 'f'] := by decide
    rw [he, List.cons_append, List.cons_append, List.nil_append, readStr_step]
    simp only [(by decide : ('\\' == '"') = false),
      (by decide : ('\\' == '\\') = true),
      (by decide : ('f' == 'u') = false), Bool.false_eq_true, if_false,
      if_true, unEsc,
      (by decide : ('f' == 't') = false), (by decide : ('f' == 'r') = false),
      (by decide : ('f' == 'n') = false), (by decide : ('f' == 'f') = true)]
  by_cases h13 : c = Char.ofNat 13
  · subst h13
    have he : escChar (Char.ofNat 13) = ['\\', 'r'] := by decide
    rw [he, List.cons_append, List.cons_append, List.nil_append, readStr_step]
    simp only [(by decide : ('\\' == '"') = false),
      (by decide : ('\\' == '\\') = true),
      (by decide : ('r' == 'u') = false), Bool.false_eq_true, if_false,
      if_true, unEsc,
      (by decide : ('r' == 't') = false), (by decide : ('r' == 'r') = true)]
  have hqb : (c == '"') = false := by simp [hq]
  have hbb : (c == '\\') = false := by simp [hb]
  have hb8 : (c == Char.ofNat 8) = false := by simp [h8]
  have hb9 : (c == Char.ofNat 9) = false := by simp [h9]
  have hb10 : (c == Char.ofNat 10) = false := by simp [h10]
  have hb12 : (c == Char.ofNat 12) = false := by simp [h12]
  have hb13 : (c == Char.ofNat 13) = false := by simp [h13]
  by_cases hctl : c.toNat < 0x20 ∨ (0x7f ≤ c.toNat ∧ c.toNat < 0x10000)
  · have hcond : (decide (c.toNat < 0x20)
        || (decide (0x7f ≤ c.toNat) && decide (c.toNat < 0x10000))) = true := by
      rcases hctl with h | h
      · simp [h]
      · simp [h.1, h.2]
    have hbmp : c.toNat < 0x10000 := by
      rcases hctl with h | h
      · omega
      · exact h.2
    simp only [escChar, hqb, hbb, hb8, hb9, hb10, hb12, hb13, Bool.false_eq_true,
      if_false, hcond, if_true]
    exact readStr_uEsc c hbmp rest f
  · have hcond : (decide (c.toNat < 0x20)
        || (decide (0x7f ≤ c.toNat) && decide (c.toNat < 0x10000))) = false := by
      simp only [Bool.or_eq_false_iff, Bool.and_eq_false_iff,
        decide_eq_false_iff_not, not_lt, not_le]
      constructor
      · omega
      · by_cases h7 : 0x7f ≤ c.toNat
        · right
          push_neg at hctl
          omega
        · left
          omega
    by_cases hast : 0x10000 ≤ c.toNat
    · simp only [escChar, hqb, hbb, hb8, hb9, hb10, hb12, hb13, Bool.false_eq_true,
        if_false, hcond, if_pos hast, List.append_assoc]
      exact readStr_astral c hast rest f
    · have hmid : 0x20 ≤ c.toNat := by
        push_neg at hctl
        omega
      have hlo : (c.toNat < 0x20) = False := by simp; omega
      simp only [escChar, hqb, hbb, hb8, hb9, hb10, hb12, hb13, Bool.false_eq_true,
        if_false, hcond, if_neg hast, List.singleton_append]
      rw [readStr_step]
      simp only [hqb, hbb, Bool.false_eq_true, if_false, hlo, if_false]

theorem escChar_len (c : Char) : 1 ≤ (escChar c).length := by
  unfold escChar
  split_ifs <;> simp [uEsc]

theorem escFlat_len (l : List Char) :
    l.length ≤ ((l.map escChar).flatten).length := by
  induction l with
  | nil => simp
  | cons c t ih =>
      have := escChar_len c
      simp only [List.map_cons, List.flatten_cons, List.length_append,
        List.length_cons]
      omega

/-- Fuel sufficiency: a printed string body is at least as long as the
    string, so the reader fuel the decoder passes always suffices. -/
theorem escFlat_len2 (l : List Char) (x : List Char) :
    l.length ≤ ((l.map escChar).flatten ++ '"' :: x).length := by
  have := escFlat_len l
  simp only [List.length_append, List.length_cons]
  omega

/-- Reading back a fully escaped character run stops at the closing quote. -/
theorem readStr_escFlat (l : List Char) (rest : List Char) :
    ∀ f : Nat, l.length ≤ f →
    readStr (f + 1) ((l.map escChar).flatten ++ '"' :: rest) = some (l, rest) := by
  induction l with
  | nil => intro f _; rfl
  | cons c t ih =>
      intro f hf
      simp only [List.map_cons, List.flatten_cons, List.append_assoc]
      cases f with
      | zero => simp at hf
      | succ f2 =>
          rw [readStr_escChar c _ (f2 + 1)]
          have ht : t.length ≤ f2 := by
            simp only [List.length_cons] at hf
            omega
          rw [ih f2 ht]
          rfl

/-- Reading back a whole printed string literal. -/
theorem readStr_strChars (s : String) (rest : List Char) (f : Nat)
    (hf : s.data.length ≤ f) :
    readStr (f + 1) (((s.data.map escChar).flatten ++ ['"']) ++ rest)
      = some (s.data, rest) := by
  rw [show ((s.data.map escChar).flatten ++ ['"']) ++ rest
      = (s.data.map escChar).flatten ++ '"' :: rest by simp]
  exact readStr_escFlat s.data rest f hf

theorem ws_char_cases {c : Char} (h : jsonWs c = true) :
    c = ' ' ∨ c = '\t' ∨ c = '\n' ∨ c = '\r' := by
  simp only [jsonWs, Bool.or_eq_true, beq_iff_eq] at h
  tauto

theorem ws_not_num {c : Char} (h : jsonWs c = true) :
    decDigit c = false ∧ c ≠ '.' ∧ c ≠ 'e' ∧ c ≠ 'E' := by
  rcases ws_char_cases h with rfl | rfl | rfl | rfl <;>
    exact ⟨by decide, by decide, by decide, by decide⟩

theorem numStop_cons {c : Char} (h1 : decDigit c = false) (h2 : c ≠ '.')
    (h3 : c ≠ 'e') (h4 : c ≠ 'E') (t : List Char) :
    numStop (c :: t) = true := by
  simp [numStop, h1, h2, h3, h4]

theorem numStop_ws_cons {ws : List Char} (hws : ∀ c ∈ ws, jsonWs c = true)
    {c : Char} (h1 : decDigit c = false) (h2 : c ≠ '.') (h3 : c ≠ 'e')
    (h4 : c ≠ 'E') (t : List Char) :
    numStop (ws ++ c :: t) = true := by
  cases ws with
  | nil => exact numStop_cons h1 h2 h3 h4 t
  | cons w t2 =>
      obtain ⟨hw1, hw2, hw3, hw4⟩ := ws_not_num (hws w (by simp))
      exact numStop_cons hw1 hw2 hw3 hw4 _

/-- A cons cell headed by a known-good character witnesses emitHead. -/
theorem headOk (c : Char)
    (hc : jsonWs c = false ∧ (c == ']') = false ∧ (c == rbrace) = false)
    (t : List Char) :
    ∃ c2 t2, c :: t = c2 :: t2 ∧ jsonWs c2 = false ∧
      (c2 == ']') = false ∧ (c2 == rbrace) = false :=
  ⟨c, t, rfl, hc.1, hc.2.1, hc.2.2⟩

/-- Every printed value starts with a character that is not whitespace and
    closes no container. The well-formedness hypothesis feeds the float case,
    whose first character comes from its integer-part digit string. -/
theorem emitHead (j : Json) (hwf : j.wf = true) (d : Nat) :
    ∃ c t, emit j d = c :: t ∧ jsonWs c = false ∧
      (c == ']') = false ∧ (c == rbrace) = false := by
  cases j with
  | null => exact headOk 'n' (by decide) _
  | bool b =>
      cases b with
      | true => exact headOk 't' (by decide) _
      | false => exact headOk 'f' (by decide) _
  | str s => exact headOk '"' (by decide) _
  | arr es =>
      cases es with
      | nil => exact headOk '[' (by decide) _
      | cons x xs => exact headOk '[' (by decide) _
  | obj ms =>
      cases ms with
      | nil => exact headOk lbrace (by decide) _
      | cons m ms => exact headOk lbrace (by decide) _
  | int n =>
      by_cases hn : n < 0
      · refine ⟨'-', natChars n.natAbs, ?_, by decide, by decide, by decide⟩
        simp [emit, intChars, hn]
      · obtain ⟨c, t, hct, hd, _⟩ := natChars_head n.natAbs
        refine ⟨c, t, ?_, ?_, ?_, ?_⟩
        · simp [emit, intChars, hn, hct]
        · exact (digit_not_stop hd).2.2
        · simp only [beq_eq_false_iff_ne]; intro he; subst he; exact absurd hd (by decide)
        · simp only [beq_eq_false_iff_ne]; intro he; subst he; exact absurd hd (by decide)
  | nan => exact headOk 'N' (by decide) _
  | inf b =>
      cases b with
      | false => exact headOk 'I' (by decide) _
      | true => exact headOk '-' (by decide) _
  | dec neg ip fp ep =>
      cases neg with
      | true => exact headOk '-' (by decide) _
      | false =>
          have hip : okInt ip = true := by
            simp only [Json.wf, Bool.and_eq_true] at hwf
            exact hwf.1.1.1
          obtain ⟨c0, t0, h0⟩ : ∃ c0 t0, ip.data = c0 :: t0 := by
            match hips : ip.data with
            | [] => simp [okInt, hips] at hip
            | c0 :: t => exact ⟨c0, t, rfl⟩
          have hd0 : decDigit c0 = true := by
            simp only [okInt, h0, Bool.and_eq_true] at hip
            exact hip.1.1
          refine ⟨c0, t0 ++ (fracChars fp ++ expChars ep), ?_, ?_, ?_, ?_⟩
          · simp [emit, decChars, h0]
          · exact (digit_not_stop hd0).2.2
          · simp only [beq_eq_false_iff_ne]; intro he; subst he
            exact absurd hd0 (by decide)
          · simp only [beq_eq_false_iff_ne]; intro he; subst he
            exact absurd hd0 (by decide)

theorem emit_len_pos (j : Json) (hwf : j.wf = true) (d : Nat) :
    1 ≤ (emit j d).length := by
  obtain ⟨c, t, hct, _⟩ := emitHead j hwf d
  simp [hct]

theorem skipWs_emit (j : Json) (hwf : j.wf = true) (d : Nat) (x : List Char) :
    skipWs (emit j d ++ x) = emit j d ++ x := by
  obtain ⟨c, t, hct, hws, _⟩ := emitHead j hwf d
  rw [hct, List.cons_append]
  exact skipWs_not_ws hws _

/-- One-step unfolding of the value reader at successor fuel (definitional). -/
theorem readVal_step (fuel : Nat) (cs : List Char) :
    readVal (fuel + 1) cs =
      (match skipWs cs with
       | [] => none
       | c :: r =>
         if c == 'n' then
           match r with
           | 'u' :: 'l' :: 'l' :: r2 => some (.null, r2)
           | _ => none
         else if c == 't' then
           match r with
           | 'r' :: 'u' :: 'e' :: r2 => some (.bool true, r2)
           | _ => none
         else if c == 'f' then
           match r with
           | 'a' :: 'l' :: 's' :: 'e' :: r2 => some (.bool false, r2)
           | _ => none
         else if c == '"' then
           match readStr (r.length + 1) r with
           | some (s, r2) => some (.str (String.mk s), r2)
           | none => none
         else if c == '[' then
           match skipWs r with
           | [] => none
           | c2 :: r2 =>
             if c2 == ']' then some (.arr [], r2)
             else
               match readItems fuel (c2 :: r2) with
               | some (vs, r3) => some (.arr vs, r3)
               | none => none
         else if c == lbrace then
           match skipWs r with
           | [] => none
           | c2 :: r2 =>
             if c2 == rbrace then some (.obj [], r2)
             else
               match readMembers fuel (c2 :: r2) with
               | some (ms, r3) => some (.obj (dedupLast ms), r3)
               | none => none
         else if c == 'N' then
           match r with
           | 'a' :: 'N' :: r2 => some (.nan, r2)
           | _ => none
         else if c == 'I' then
           match r with
           | 'n' :: 'f' :: 'i' :: 'n' :: 'i' :: 't' :: 'y' :: r2 =>
             some (.inf false, r2)
           | _ => none
         else if c == '-' then
           match r with
           | r1 :: rr =>
             if r1 == 'I' then
               match rr with
               | 'n' :: 'f' :: 'i' :: 'n' :: 'i' :: 't' :: 'y' :: r2 =>
                 some (.inf true, r2)
               | _ => none
             else readNum (c :: r)
           | [] => readNum (c :: r)
         else if decDigit c then readNum (c :: r)
         else none) := rfl

/-- One-step unfolding of the item reader at successor fuel (definitional). -/
theorem readItems_step (fuel : Nat) (cs : List Char) :
    readItems (fuel + 1) cs =
      (match readVal fuel cs with
       | none => none
       | some (v, r) =>
         match skipWs r with
         | [] => none
         | c2 :: r2 =>
           if c2 == ',' then
             match readItems fuel r2 with
             | some (vs, r3) => some (v :: vs, r3)
             | none => none
           else if c2 == ']' then some ([v], r2)
           else none) := rfl

/-- One-step unfolding of the member reader at successor fuel (definitional). -/
theorem readMembers_step (fuel : Nat) (cs : List Char) :
    readMembers (fuel + 1) cs =
      (match skipWs cs with
       | [] => none
       | c1 :: r =>
         if c1 == '"' then
           match readStr (r.length + 1) r with
           | none => none
           | some (k, r1) =>
             match skipWs r1 with
             | [] => none
             | c2 :: r2 =>
               if c2 == ':' then
                 match readVal fuel r2 with
                 | none => none
                 | some (v, r3) =>
                   match skipWs r3 with
                   | [] => none
                   | c4 :: r4 =>
                     if c4 == ',' then
                       match readMembers fuel r4 with
                       | some (ms, r5) => some ((String.mk k, v) :: ms, r5)
                       | none => none
                     else if c4 == rbrace then some ([(String.mk k, v)], r4)
                     else none
               else none
         else none) := rfl

/-- Reading a value ignores leading whitespace. -/
theorem readVal_ws (fuel : Nat) {ws : List Char}
    (h : ∀ c ∈ ws, jsonWs c = true) (cs : List Char) :
    readVal fuel (ws ++ cs) = readVal fuel cs := by
  cases fuel with
  | zero => rfl
  | succ f => rw [readVal_step, readVal_step, skipWs_ws_append h]

/-- Reading a value ignores one leading space (the colon-space separator). -/
theorem readVal_space (fuel : Nat) (cs : List Char) :
    readVal fuel (' ' :: cs) = readVal fuel cs := by
  have h := @readVal_ws fuel [' ']
    (by intro c hc; rw [List.mem_singleton] at hc; subst hc; decide) cs
  simpa using h

/-! ### Round trip, part 3: the reader inverts the writer -/

theorem num_head_dispatch {c : Char} (h : decDigit c = true) :
    (c == 'n') = false ∧ (c == 't') = false ∧ (c == 'f') = false ∧
    (c == '"') = false ∧ (c == '[') = false ∧ (c == lbrace) = false ∧
    (c == 'N') = false ∧ (c == 'I') = false ∧ (c == '-') = false ∧
    jsonWs c = false := by
  refine ⟨?_, ?_, ?_, ?_, ?_, ?_, ?_, ?_, ?_, (digit_not_stop h).2.2⟩ <;>
    (simp only [beq_eq_false_iff_ne]; intro he; subst he; exact absurd h (by decide))

/-- A value whose text begins with a digit is read through `readNum`. -/
theorem readVal_to_readNum (f : Nat) {c0 : Char}
    (h : decDigit c0 = true) (t : List Char) :
    readVal (f + 1) (c0 :: t) = readNum (c0 :: t) := by
  obtain ⟨h1, h2, h3, h4, h5, h6, h7, h8, h9, h10⟩ := num_head_dispatch h
  rw [readVal_step, skipWs_not_ws h10]
  simp only [h1, h2, h3, h4, h5, h6, h7, h8, h9, Bool.false_eq_true, if_false,
    h, if_true]

/-- A value whose text begins with a minus sign followed by a digit is read
    through `readNum` (the digit rules out the -Infinity constant). -/
theorem readVal_neg_num (f : Nat) {c1 : Char} (h : decDigit c1 = true)
    (t : List Char) :
    readVal (f + 1) ('-' :: c1 :: t) = readNum ('-' :: c1 :: t) := by
  have hI : (c1 == 'I') = false := digit_beq_false h (by decide)
  rw [readVal_step, skipWs_not_ws (by decide)]
  simp only [(by decide : ('-' == 'n') = false), (by decide : ('-' == 't') = false),
    (by decide : ('-' == 'f') = false), (by decide : ('-' == '"') = false),
    (by decide : ('-' == '[') = false), (by decide : ('-' == lbrace) = false),
    (by decide : ('-' == 'N') = false), (by decide : ('-' == 'I') = false),
    (by decide : ('-' == '-') = true), Bool.false_eq_true, if_false, if_true,
    hI]

theorem alookup_append (l1 l2 : List (String × Json)) (key : String) :
    alookup (l1 ++ l2) key
      = match alookup l1 key with
        | some v => some v
        | none => alookup l2 key := by
  induction l1 with
  | nil => simp [alookup]
  | cons kv t ih =>
      obtain ⟨k, v⟩ := kv
      by_cases hk : k = key
      · simp [alookup, hk]
      · simp [alookup, hk, ih]

/-- Folding dict insertion over members with pairwise-distinct keys, none
    already present, appends them unchanged. -/
theorem dedup_go (ms : List (String × Json)) :
    ∀ acc : List (String × Json),
    (∀ kv ∈ ms, alookup acc kv.1 = none) → keysDistinct ms = true →
    ms.foldl (fun acc kv => dictInsert acc kv.1 kv.2) acc = acc ++ ms := by
  induction ms with
  | nil => intro acc _ _; simp
  | cons kv t ih =>
      intro acc hacc hkd
      obtain ⟨k, v⟩ := kv
      simp only [List.foldl_cons]
      have h1 : alookup acc k = none := hacc (k, v) (by simp)
      have hdi : dictInsert acc k v = acc ++ [(k, v)] := by
        simp [dictInsert, h1]
      rw [hdi]
      simp only [keysDistinct, Bool.and_eq_true, List.all_eq_true] at hkd
      have hacc2 : ∀ kv2 ∈ t, alookup (acc ++ [(k, v)]) kv2.1 = none := by
        intro kv2 hkv2
        rw [alookup_append, hacc kv2 (by simp [hkv2])]
        have hne : (kv2.1 == k) = false := by
          have := hkd.1 kv2 hkv2
          simpa using this
        rw [beq_eq_false_iff_ne] at hne
        have hke : ¬(k = kv2.1) := fun he => hne he.symm
        simp [alookup, hke]
      rw [ih (acc ++ [(k, v)]) hacc2 hkd.2]
      simp

/-- Python dict construction is the identity on a member list with
    pairwise-distinct keys. -/
theorem dedupLast_eq {ms : List (String × Json)} (h : keysDistinct ms = true) :
    dedupLast ms = ms := by
  have key := dedup_go ms [] (by intro kv _; rfl) h
  simpa [dedupLast] using key

mutual

/-- Reading back a printed value recovers it, for every well-formed value,
    any print depth, enough fuel, and any tail that cannot extend a number. -/
theorem rt_val : ∀ (j : Json) (d fuel : Nat) (rest : List Char),
    j.wf = true → (emit j d).length < fuel → numStop rest = true →
    readVal fuel (emit j d ++ rest) = some (j, rest)
  | .null, d, fuel, rest, _, hf, _ => by
      cases fuel with
      | zero => exact absurd hf (Nat.not_lt_zero _)
      | succ f => rfl
  | .bool true, d, fuel, rest, _, hf, _ => by
      cases fuel with
      | zero => exact absurd hf (Nat.not_lt_zero _)
      | succ f => rfl
  | .bool false, d, fuel, rest, _, hf, _ => by
      cases fuel with
      | zero => exact absurd hf (Nat.not_lt_zero _)
      | succ f => rfl
  | .int n, d, fuel, rest, _, hf, hr => by
      cases fuel with
      | zero => exact absurd hf (Nat.not_lt_zero _)
      | succ f =>
          obtain ⟨c, t, hct, hd, _⟩ := natChars_head n.natAbs
          by_cases hn : n < 0
          · have harg : emit (.int n) d ++ rest = '-' :: (c :: (t ++ rest)) := by
              simp [emit, intChars, hn, hct]
            rw [harg, readVal_neg_num f hd]
            rw [show ('-' :: (c :: (t ++ rest))) = intChars n ++ rest from by
              simp [intChars, hn, hct]]
            exact readNum_intChars n hr
          · have harg : emit (.int n) d ++ rest = c :: (t ++ rest) := by
              simp [emit, intChars, hn, hct]
            rw [harg, readVal_to_readNum f hd]
            rw [show (c :: (t ++ rest)) = intChars n ++ rest from by
              simp [intChars, hn, hct]]
            exact readNum_intChars n hr
  | .dec neg ip fp ep, d, fuel, rest, hwf, hf, hr => by
      cases fuel with
      | zero => exact absurd hf (Nat.not_lt_zero _)
      | succ f =>
          have hw4 : okInt ip = true ∧ okFracPart fp = true ∧
              okExpPart ep = true ∧ (fp.isSome || ep.isSome) = true := by
            simpa [Json.wf, Bool.and_eq_true, and_assoc] using hwf
          have key := readNum_dec neg ip fp ep hw4.1 hw4.2.1 hw4.2.2.1 hw4.2.2.2 hr
          have hip := hw4.1
          obtain ⟨c0, t0, h0⟩ : ∃ c0 t0, ip.data = c0 :: t0 := by
            match hips : ip.data with
            | [] => simp [okInt, hips] at hip
            | c0 :: t => exact ⟨c0, t, rfl⟩
          have hd0 : decDigit c0 = true := by
            simp only [okInt, h0, Bool.and_eq_true] at hip
            exact hip.1.1
          cases neg with
          | true =>
              have harg : emit (.dec true ip fp ep) d ++ rest
                  = '-' :: (c0 :: (t0 ++ (fracChars fp ++ expChars ep ++ rest))) := by
                simp [emit, decChars, h0]
              rw [harg, readVal_neg_num f hd0]
              rw [show ('-' :: (c0 :: (t0 ++ (fracChars fp ++ expChars ep ++ rest))))
                  = decChars true ip fp ep ++ rest from by simp [decChars, h0]]
              exact key
          | false =>
              have harg : emit (.dec false ip fp ep) d ++ rest
                  = c0 :: (t0 ++ (fracChars fp ++ expChars ep ++ rest)) := by
                simp [emit, decChars, h0]
              rw [harg, readVal_to_readNum f hd0]
              rw [show (c0 :: (t0 ++ (fracChars fp ++ expChars ep ++ rest)))
                  = decChars false ip fp ep ++ rest from by simp [decChars, h0]]
              exact key
  | .nan, d, fuel, rest, _, hf, _ => by
      cases fuel with
      | zero => exact absurd hf (Nat.not_lt_zero _)
      | succ f => rfl
  | .inf false, d, fuel, rest, _, hf, _ => by
      cases fuel with
      | zero => exact absurd hf (Nat.not_lt_zero _)
      | succ f => rfl
  | .inf true, d, fuel, rest, _, hf, _ => by
      cases fuel with
      | zero => exact absurd hf (Nat.not_lt_zero _)
      | succ f => rfl
  | .str s, d, fuel, rest, hwf, hf, _ => by
      cases fuel with
      | zero => exact absurd hf (Nat.not_lt_zero _)
      | succ f =>
          have harg : emit (.str s) d ++ rest
              = '"' :: ((s.data.map escChar).flatten ++ '"' :: rest) := by
            simp [emit, strChars]
          rw [harg, readVal_step, skipWs_not_ws (by decide)]
          simp only [(by decide : ('"' == 'n') = false),
            (by decide : ('"' == 't') = false), (by decide : ('"' == 'f') = false),
            (by decide : (('"' : Char) == '"') = true), Bool.false_eq_true,
            if_false, if_true, readStr_escFlat s.data rest _ (escFlat_len2 s.data rest),
            strMk_data]
  | .arr [], d, fuel, rest, _, hf, _ => by
      cases fuel with
      | zero => exact absurd hf (Nat.not_lt_zero _)
      | succ f => rfl
  | .arr (x :: xs), d, fuel, rest, hwf, hf, _ => by
      cases fuel with
      | zero => exact absurd hf (Nat.not_lt_zero _)
      | succ f =>
          have hwi : x.wf = true ∧ Json.wfItems xs = true := by
            simpa [Json.wf, Json.wfItems, Bool.and_eq_true] using hwf
          obtain ⟨cx, tx, hcx, hwsx, hbrx, _⟩ := emitHead x hwi.1 (d + 1)
          have harg : emit (.arr (x :: xs)) d ++ rest
              = '[' :: (nlInd (d + 1)
                  ++ (emit x (d + 1) ++ (emitSeps xs (d + 1) ++ (nlInd d ++ ']' :: rest)))) := by
            simp [emit, emitItems]
          rw [harg, readVal_step, skipWs_not_ws (by decide)]
          simp only [(by decide : ('[' == 'n') = false),
            (by decide : ('[' == 't') = false), (by decide : ('[' == 'f') = false),
            (by decide : ('[' == '"') = false), (by decide : ('[' == '[') = true),
            Bool.false_eq_true, if_false, if_true]
          rw [skipWs_nlInd, hcx, List.cons_append, skipWs_not_ws hwsx]
          try simp only []
          simp only [hbrx, Bool.false_eq_true, if_false]
          rw [← List.cons_append, ← hcx]
          have hfx : (emit x (d + 1)).length + (emitSeps xs (d + 1)).length + 1 < f := by
            simp only [emit, emitItems, nlInd, List.length_cons, List.length_append,
              List.length_replicate] at hf
            omega
          have key := rt_items x xs (d + 1) f [] (nlInd d) rest
            (by simpa [Json.wfItems, Bool.and_eq_true] using hwi) hfx
            (by intro c hc; simp at hc) (nlInd_ws d)
          rw [List.nil_append] at key
          rw [key]
  | .obj [], d, fuel, rest, _, hf, _ => by
      cases fuel with
      | zero => exact absurd hf (Nat.not_lt_zero _)
      | succ f => rfl
  | .obj ((k, v) :: ms), d, fuel, rest, hwf, hf, _ => by
      cases fuel with
      | zero => exact absurd hf (Nat.not_lt_zero _)
      | succ f =>
          have hkw : keysDistinct ((k, v) :: ms) = true ∧
              Json.wfMembers ((k, v) :: ms) = true := by
            simpa [Json.wf, Bool.and_eq_true] using hwf
          have hwm : v.wf = true ∧ Json.wfMembers ms = true := by
            simpa [Json.wfMembers, Bool.and_eq_true] using hkw.2
          have harg : emit (.obj ((k, v) :: ms)) d ++ rest
              = lbrace :: (nlInd (d + 1)
                  ++ (strChars k ++ (':' :: ' ' :: (emit v (d + 1)
                      ++ (emitMSeps ms (d + 1) ++ (nlInd d ++ rbrace :: rest)))))) := by
            simp [emit, emitMembers]
          rw [harg, readVal_step, skipWs_not_ws (by decide)]
          simp only [(by decide : (lbrace == 'n') = false),
            (by decide : (lbrace == 't') = false), (by decide : (lbrace == 'f') = false),
            (by decide : (lbrace == '"') = false), (by decide : (lbrace == '[') = false),
            (by decide : (lbrace == lbrace) = true),
            Bool.false_eq_true, if_false, if_true]
          rw [skipWs_nlInd]
          have hq : strChars k ++ (':' :: ' ' :: (emit v (d + 1)
              ++ (emitMSeps ms (d + 1) ++ (nlInd d ++ rbrace :: rest))))
              = '"' :: ((k.data.map escChar).flatten
                  ++ '"' :: (':' :: ' ' :: (emit v (d + 1)
                      ++ (emitMSeps ms (d + 1) ++ (nlInd d ++ rbrace :: rest))))) := by
            simp [strChars]
          rw [hq, skipWs_not_ws (show jsonWs '"' = false from by decide)]
          simp only [(by decide : ('"' == rbrace) = false), Bool.false_eq_true, if_false]
          rw [← hq]
          have hfm : (strChars k).length + (emit v (d + 1)).length
              + (emitMSeps ms (d + 1)).length + 3 < f := by
            simp only [emit, emitMembers, nlInd, List.length_cons, List.length_append,
              List.length_replicate] at hf
            try simp only [List.length_append] at hf ⊢
            omega
          have key := rt_members k v ms (d + 1) f [] (nlInd d) rest hwm hfm
            (by intro c hc; simp at hc) (nlInd_ws d)
          rw [List.nil_append] at key
          rw [key]
          try simp only []
          rw [dedupLast_eq hkw.1]
  termination_by j => sizeOf j

/-- Reading back a printed item list (with optional surrounding whitespace)
    recovers the items and stops after the closing bracket. -/
theorem rt_items : ∀ (x : Json) (xs : List Json) (d fuel : Nat)
    (ws0 ws1 rest : List Char),
    Json.wfItems (x :: xs) = true →
    (emit x d).length + (emitSeps xs d).length + 1 < fuel →
    (∀ c ∈ ws0, jsonWs c = true) → (∀ c ∈ ws1, jsonWs c = true) →
    readItems fuel (ws0 ++ (emit x d ++ (emitSeps xs d ++ (ws1 ++ ']' :: rest))))
      = some (x :: xs, rest)
  | x, [], d, fuel, ws0, ws1, rest, hw, hf, hws0, hws1 => by
      cases fuel with
      | zero => exact absurd hf (Nat.not_lt_zero _)
      | succ f =>
          have hwx : x.wf = true := by
            simpa [Json.wfItems, Bool.and_eq_true] using hw
          rw [readItems_step, readVal_ws f hws0]
          rw [show emitSeps ([] : List Json) d ++ (ws1 ++ ']' :: rest)
              = ws1 ++ ']' :: rest from by simp [emitSeps]]
          have hnum : numStop (ws1 ++ ']' :: rest) = true :=
            numStop_ws_cons hws1 (by decide) (by decide) (by decide) (by decide) rest
          have hfx : (emit x d).length < f := by omega
          rw [rt_val x d f _ hwx hfx hnum]
          try simp only []
          rw [skipWs_ws_append hws1,
            skipWs_not_ws (show jsonWs ']' = false from by decide)]
          rfl
  | x, y :: ys, d, fuel, ws0, ws1, rest, hw, hf, hws0, hws1 => by
      cases fuel with
      | zero => exact absurd hf (Nat.not_lt_zero _)
      | succ f =>
          have hwx : x.wf = true ∧ Json.wfItems (y :: ys) = true := by
            simpa [Json.wfItems, Bool.and_eq_true] using hw
          rw [readItems_step, readVal_ws f hws0]
          have harg : emitSeps (y :: ys) d ++ (ws1 ++ ']' :: rest)
              = ',' :: (nlInd d ++ (emit y d ++ (emitSeps ys d ++ (ws1 ++ ']' :: rest)))) := by
            simp [emitSeps]
          rw [harg]
          have hnum : numStop (',' :: (nlInd d
              ++ (emit y d ++ (emitSeps ys d ++ (ws1 ++ ']' :: rest))))) = true :=
            numStop_cons (by decide) (by decide) (by decide) (by decide) _
          have hfx : (emit x d).length < f := by omega
          rw [rt_val x d f _ hwx.1 hfx hnum]
          try simp only []
          rw [skipWs_not_ws (show jsonWs ',' = false from by decide)]
          try simp only []
          have hfy : (emit y d).length + (emitSeps ys d).length + 1 < f := by
            simp only [emitSeps, nlInd, List.length_cons, List.length_append,
              List.length_replicate] at hf
            omega
          rw [rt_items y ys d f (nlInd d) ws1 rest hwx.2 hfy (nlInd_ws d) hws1]
          rfl
  termination_by x xs => sizeOf x + sizeOf xs

/-- Reading back a printed member list (with optional surrounding whitespace)
    recovers the members and stops after the closing brace. -/
theorem rt_members : ∀ (k : String) (v : Json) (ms : List (String × Json))
    (d fuel : Nat) (ws0 ws1 rest : List Char),
    (v.wf = true ∧ Json.wfMembers ms = true) →
    (strChars k).length + (emit v d).length + (emitMSeps ms d).length + 3 < fuel →
    (∀ c ∈ ws0, jsonWs c = true) → (∀ c ∈ ws1, jsonWs c = true) →
    readMembers fuel (ws0 ++ (strChars k ++ (':' :: ' ' :: (emit v d
        ++ (emitMSeps ms d ++ (ws1 ++ rbrace :: rest))))))
      = some ((k, v) :: ms, rest)
  | k, v, [], d, fuel, ws0, ws1, rest, hw, hf, hws0, hws1 => by
      cases fuel with
      | zero => exact absurd hf (Nat.not_lt_zero _)
      | succ f =>
          obtain ⟨hwv, hwms⟩ := hw
          rw [readMembers_step, skipWs_ws_append hws0]
          have hq : strChars k ++ (':' :: ' ' :: (emit v d
              ++ (emitMSeps ([] : List (String × Json)) d ++ (ws1 ++ rbrace :: rest))))
              = '"' :: ((k.data.map escChar).flatten
                  ++ '"' :: (':' :: ' ' :: (emit v d
                      ++ (emitMSeps ([] : List (String × Json)) d
                          ++ (ws1 ++ rbrace :: rest))))) := by
            simp [strChars]
          rw [hq, skipWs_not_ws (show jsonWs '"' = false from by decide)]
          try simp only []
          rw [readStr_escFlat k.data _ _ (escFlat_len2 k.data _)]
          try simp only []
          rw [skipWs_not_ws (show jsonWs ':' = false from by decide)]
          try simp only []
          rw [readVal_space]
          rw [show emitMSeps ([] : List (String × Json)) d
              ++ (ws1 ++ rbrace :: rest) = ws1 ++ rbrace :: rest
            from by simp [emitMSeps]]
          have hnum : numStop (ws1 ++ rbrace :: rest) = true :=
            numStop_ws_cons hws1 (by decide) (by decide) (by decide) (by decide) rest
          have hfv : (emit v d).length < f := by omega
          rw [rt_val v d f _ hwv hfv hnum]
          try simp only []
          rw [skipWs_ws_append hws1,
            skipWs_not_ws (show jsonWs rbrace = false from by decide)]
          rfl
  | k, v, (k2, v2) :: ms2, d, fuel, ws0, ws1, rest, hw, hf, hws0, hws1 => by
      cases fuel with
      | zero => exact absurd hf (Nat.not_lt_zero _)
      | succ f =>
          obtain ⟨hwv, hwms⟩ := hw
          rw [readMembers_step, skipWs_ws_append hws0]
          have hq : strChars k ++ (':' :: ' ' :: (emit v d
              ++ (emitMSeps ((k2, v2) :: ms2) d ++ (ws1 ++ rbrace :: rest))))
              = '"' :: ((k.data.map escChar).flatten
                  ++ '"' :: (':' :: ' ' :: (emit v d
                      ++ (emitMSeps ((k2, v2) :: ms2) d ++ (ws1 ++ rbrace :: rest))))) := by
            simp [strChars]
          rw [hq, skipWs_not_ws (show jsonWs '"' = false from by decide)]
          try simp only []
          rw [readStr_escFlat k.data _ _ (escFlat_len2 k.data _)]
          try simp only []
          rw [skipWs_not_ws (show jsonWs ':' = false from by decide)]
          try simp only []
          rw [readVal_space]
          have harg : emitMSeps ((k2, v2) :: ms2) d ++ (ws1 ++ rbrace :: rest)
              = ',' :: (nlInd d ++ (strChars k2 ++ (':' :: ' ' :: (emit v2 d
                  ++ (emitMSeps ms2 d ++ (ws1 ++ rbrace :: rest)))))) := by
            simp [emitMSeps]
          rw [harg]
          have hnum : numStop (',' :: (nlInd d ++ (strChars k2
              ++ (':' :: ' ' :: (emit v2 d
                  ++ (emitMSeps ms2 d ++ (ws1 ++ rbrace :: rest))))))) = true :=
            numStop_cons (by decide) (by decide) (by decide) (by decide) _
          have hfv : (emit v d).length < f := by omega
          rw [rt_val v d f _ hwv hfv hnum]
          try simp only []
          rw [skipWs_not_ws (show jsonWs ',' = false from by decide)]
          try simp only []
          try simp only [(by decide : ((',' : Char) == ',') = true),
            eq_self_iff_true, if_true]
          have hwm2 : v2.wf = true ∧ Json.wfMembers ms2 = true := by
            simpa [Json.wfMembers, Bool.and_eq_true] using hwms
          have hfm2 : (strChars k2).length + (emit v2 d).length
              + (emitMSeps ms2 d).length + 3 < f := by
            simp only [emitMSeps, nlInd, List.length_cons, List.length_append,
              List.length_replicate] at hf
            try simp only [List.length_append] at hf ⊢
            omega
          have key := rt_members k2 v2 ms2 d f (nlInd d) ws1 rest hwm2 hfm2
            (nlInd_ws d) hws1
          rw [key]
          rfl
  termination_by k v ms => sizeOf v + sizeOf ms

end

/-- The reader inverts the writer on every well-formed document: the model
    of json.load returns exactly the document json.dump wrote. -/
theorem json_loads_dumps (j : Json) (h : j.wf = true) :
    json_loads (json_dumps j) = some j := by
  unfold json_loads json_dumps
  rw [show (String.mk (emit j 0)).data = emit j 0 from rfl]
  have key := rt_val j 0 ((emit j 0).length + 1) [] h (by omega) (by decide)
  rw [show emit j 0 ++ [] = emit j 0 from by simp] at key
  rw [key]
  rfl

/-! ### The state store

The on-disk state file is modelled by `FileState`: the path may be absent
(DATA_PATH.exists() returns False), present but unreadable (open() raises
OSError, for instance permission denied), or present with some text.
save_state writes the whole file (the mkdir and the overwrite always
succeed in the model); load_state mirrors the source exactly: a missing
path resets, json.JSONDecodeError resets, and any other exception - such
as the OSError of an unreadable file - propagates, modelled as `.error ()`. -/

inductive FileState where
  | absent
  | unreadable
  | file (text : String)
deriving Repr

/-- save_state: mkdir the parent, then overwrite the file with
    json.dump(state, handle, indent=2). -/
def save_state (state : Json) : FileState :=
  .file (json_dumps state)

/-- sample_state() from the source, with the two clock reads datetime.now
    injected: `today` stands for _today_iso() and `tomorrow` for
    (datetime.now().date() + timedelta(days=1)).isoformat(). -/
def sample_state (today tomorrow : String) : Json :=
  Json.obj [
    ("profile", .obj [("business_name", .str "Acme Components"), ("owner", .str "You")]),
    ("segments", .arr [
      .obj [("name", .str "New Leads"),
        ("criteria", .arr [.str "Created < 30 days", .str "Matches ICP industries"]),
        ("size", .int 34)],
      .obj [("name", .str "Active Customers"),
        ("criteria", .arr [.str "Touched product in last 14 days"]),
        ("size", .int 18)],
      .obj [("name", .str "Dormant Accounts"),
        ("criteria", .arr [.str "No activity > 30 days"]),
        ("size", .int 12)]]),
    ("campaigns", .arr [
      .obj [("name", .str "Onboarding Drip"), ("segment", .str "New Leads"),
        ("trigger", .str "Sign-up form"), ("channel", .str "Email"),
        ("template", .str "Welcome Series"), ("status", .str "scheduled"),
        ("next_send", .str tomorrow)],
      .obj [("name", .str "Win-back Sequence"), ("segment", .str "Dormant Accounts"),
        ("trigger", .str "Inactivity 30d"), ("channel", .str "Email"),
        ("template", .str "Re-engagement"), ("status", .str "ready"),
        ("next_send", .str tomorrow)],
      .obj [("name", .str "Post-demo Follow-up"), ("segment", .str "Active Customers"),
        ("trigger", .str "Demo completed"), ("channel", .str "Email + Call task"),
        ("template", .str "Demo Recap"), ("status", .str "running"),
        ("next_send", .str today)]]),
    ("templates", .arr [
      .obj [("name", .str "Welcome Series"), ("medium", .str "Email"),
        ("purpose", .str "Onboarding"), ("last_updated", .str today)],
      .obj [("name", .str "Re-engagement"), ("medium", .str "Email"),
        ("purpose", .str "Win-back"), ("last_updated", .str today)],
      .obj [("name", .str "Product Tour Deck"), ("medium", .str "Presentation"),
        ("purpose", .str "Sales enablement"), ("last_updated", .str today)]]),
    ("integrations", .arr [
      .obj [("name", .str "CRM (HubSpot)"), ("status", .str "connected"),
        ("detail", .str "API token valid")],
      .obj [("name", .str "Email (SendGrid)"), ("status", .str "connected"),
        ("detail", .str "Sender verified")],
      .obj [("name", .str "Social (LinkedIn)"), ("status", .str "pending"),
        ("detail", .str "OAuth to finish")]]),
    ("connectors", .arr [
      .obj [("name", .str "HubSpot contacts"), ("status", .str "connected"),
        ("last_sync", .str today), ("detail", .str "Contacts + deals")],
      .obj [("name", .str "LinkedIn Ads"), ("status", .str "pending"),
        ("last_sync", .str "—"), ("detail", .str "Finish OAuth to pull audiences")],
      .obj [("name", .str "SendGrid events"), ("status", .str "connected"),
        ("last_sync", .str today), ("detail", .str "Bounces + clicks ingested")]]),
    ("backend", .arr [
      .obj [("service", .str "Engagement API"), ("status", .str "healthy"),
        ("latency_ms", .int 180), ("error_rate", .str "0.2%"),
        ("version", .str "v1.4.2")],
      .obj [("service", .str "Automation Worker"), ("status", .str "degraded"),
        ("latency_ms", .int 420), ("error_rate", .str "1.1%"),
        ("version", .str "v1.3.9")]]),
    ("databases", .arr [
      .obj [("name", .str "Postgres"), ("role", .str "Primary"),
        ("status", .str "healthy"), ("storage_gb", .dec false "12" (some "4") none),
        ("connections", .int 58)],
      .obj [("name", .str "Redis"), ("role", .str "Cache"),
        ("status", .str "healthy"), ("storage_gb", .dec false "1" (some "1") none),
        ("connections", .int 14)]]),
    ("analytics", .obj [
      ("open_rate", .dec false "0" (some "46") none),
      ("click_rate", .dec false "0" (some "23") none),
      ("reply_rate", .dec false "0" (some "14") none),
      ("conversions", .int 5),
      ("ab_tests", .arr [
        .obj [("name", .str "CTA copy"), ("winner", .str "Book a call"),
          ("uplift", .dec false "0" (some "12") none)],
        .obj [("name", .str "Send time"), ("winner", .str "09:00"),
          ("uplift", .dec false "0" (some "08") none)]])]),
    ("feedback", .arr [
      .obj [("name", .str "Post-demo pulse"),
        ("question", .str "How clear was the value prop?"),
        ("last_sent", .str today), ("responses", .int 12)],
      .obj [("name", .str "Onboarding check-in"),
        ("question", .str "Did you activate the core workflow?"),
        ("last_sent", .str today), ("responses", .int 8)]]),
    ("actions", .arr [
      .obj [("title", .str "A/B test CTA for New Leads"), ("due", .str today),
        ("owner", .str "You")],
      .obj [("title", .str "Send nurture to Dormant Accounts"), ("due", .str tomorrow),
        ("owner", .str "You")],
      .obj [("title", .str "Sync CRM deal stages"), ("due", .str tomorrow),
        ("owner", .str "You")]]),
    ("automation_rules", .obj [
      ("SMB_CTO", .obj [("segment", .str "Tech Leads"), ("cadence", .str "0-3-7"),
        ("channel", .str "Email+LinkedIn")]),
      ("Enterprise", .obj [("segment", .str "VP Sales"), ("cadence", .str "0-5-14-30"),
        ("ab_tests", .int 3)]),
      ("Demo_video", .obj [("variants", .int 2), ("length", .int 90),
        ("format", .str "MP4 vertical")])])]

/-- reset_state(): build the sample, persist it, return it. -/
def reset_state (today tomorrow : String) : Json × FileState :=
  (sample_state today tomorrow, save_state (sample_state today tomorrow))

/-- load_state(): reset when the path is absent, parse otherwise; only
    json.JSONDecodeError is caught (resetting), every other exception
    propagates to the caller (`.error ()`). -/
def load_state (today tomorrow : String) (fs : FileState) :
    Except Unit (Json × FileState) :=
  match fs with
  | .absent => .ok (reset_state today tomorrow)
  | .unreadable => .error ()
  | .file text =>
    match json_loads text with
    | some doc => .ok (doc, .file text)
    | none => .ok (reset_state today tomorrow)

/-- The sample document is well formed whenever the two injected date
    strings are. -/
theorem sample_state_wf (t tm : String) :
    (sample_state t tm).wf = true := by
  rfl

/-! ### Python dict access and truthiness -/

/-- state.get(key) without a default: the stored value, `none` when absent.
    The claims only apply it to objects, as Python would raise otherwise. -/
def pyGet (state : Json) (key : String) : Option Json :=
  match state with
  | .obj kvs => alookup kvs key
  | _ => none

/-- state.get(key, default): the stored value (even a stored null), or the
    default only when the key is absent. -/
def pyGetD (state : Json) (key : String) (dflt : Json) : Json :=
  (pyGet state key).getD dflt

/-- Python truthiness of a json value: None, zero, the empty string and
    empty containers are falsy. -/
def pyTruthy : Json → Bool
  | .null => false
  | .bool b => b
  | .int n => decide (n ≠ 0)
  | .dec _ ip fp _ =>
    !(ip.data.all fun c => c == '0')
      || !(((fp.getD "").data).all fun c => c == '0')
  | .nan => true
  | .inf _ => true
  | .str s => decide (s ≠ "")
  | .arr xs => !xs.isEmpty
  | .obj ms => !ms.isEmpty

/-- Python str() of the values the source interpolates into f-strings
    (only strings and integers reach an f-string in generate_auto_plan). -/
def pyStr : Json → String
  | .str s => s
  | .int n => toString n
  | .null => "None"
  | .bool true => "True"
  | .bool false => "False"
  | .dec neg ip fp ep => String.mk (decChars neg ip fp ep)
  | .nan => "nan"
  | .inf false => "inf"
  | .inf true => "-inf"
  | .arr _ => ""
  | .obj _ => ""

/-- str.lower, faithful on the ASCII range every status and keyword uses. -/
def pyLower (s : String) : String := String.mk (s.data.map Char.toLower)

/-! ### The status colour map (_status_color, lines 242-256) -/

/-- mapping.get(status.lower(), "white") over the literal colour dict. -/
def _status_color (status : String) : String :=
  let s := pyLower status
  if s = "running" then "green"
  else if s = "scheduled" then "cyan"
  else if s = "ready" then "yellow"
  else if s = "paused" then "red"
  else if s = "connected" then "green"
  else if s = "healthy" then "green"
  else if s = "degraded" then "yellow"
  else if s = "maintenance" then "magenta"
  else if s = "pending" then "yellow"
  else if s = "offline" then "red"
  else if s = "failed" then "red"
  else "white"

/-! ### The connectors accessor (build_integration_table, lines 359-363) -/

/-- The rows the Connectors table iterates: connectors =
    state.get("connectors"); if connectors is None: connectors =
    state.get("integrations", []). A stored JSON null and an absent key are
    the same Python None at the `is None` test. -/
def connectors_for_display (state : Json) : Json :=
  let connectors := (pyGet state "connectors").getD Json.null
  match connectors with
  | .null => pyGetD state "integrations" (.arr [])
  | v => v

/-! ### The rule matcher (generate_auto_plan, lines 565-633) -/

/-- Substring test: does the needle occur inside the haystack. -/
def hasSub : List Char → List Char → Bool
  | h, n =>
    if n.isPrefixOf h then true
    else
      match h with
      | [] => false
      | _ :: t => hasSub t n

/-- Python `needle in haystack` on strings. -/
def pyIn (needle haystack : String) : Bool := hasSub haystack.data needle.data

/-- The keyword table of generate_auto_plan, in its dict insertion order. -/
def rule_patterns : List (String × List String) :=
  [("SMB_CTO", ["smb", "cto", "tech lead", "technical", "small business",
     "medium business"]),
   ("Enterprise", ["enterprise", "vp", "sales", "large", "corporation"]),
   ("Demo_video", ["demo", "video", "presentation", "recording", "mp4"])]

/-- The for-loop with break: the first rule any of whose keywords occurs in
    the lowercased idea. -/
def matched_rule (idea : String) : Option String :=
  (rule_patterns.find? fun p => p.2.any fun kw => pyIn kw (pyLower idea)).map
    Prod.fst

/-- The literal fallback plan for an idea matching no rule. -/
def default_plan : Json :=
  .obj [("rule_matched", .str "Default"), ("segment", .str "General Audience"),
    ("cadence", .str "0-7"), ("channel", .str "Email"), ("variants", .int 1),
    ("auto_handled", .arr [.str "Segment selection", .str "Basic scheduling"])]

/-- generate_auto_plan with the clock reads of its sample_state() call
    injected. The plan dict keeps the insertion order of the source:
    rule_matched, segment, cadence, channel, variants, ab_tests, length,
    format, then auto_handled (created empty, appended to afterwards). -/
def generate_auto_plan (today tomorrow idea : String) : Json :=
  match matched_rule idea with
  | none => default_plan
  | some r =>
    let state := sample_state today tomorrow
    let rules := pyGetD state "automation_rules" (.obj [])
    let rule_config := pyGetD rules r (.obj [])
    let seg := pyGetD rule_config "segment" (.str "General Audience")
    let cad := pyGetD rule_config "cadence" (.str "0-7")
    let chan := pyGetD rule_config "channel" (.str "Email")
    let var := pyGetD rule_config "variants" (.int 1)
    let ab := (pyGet rule_config "ab_tests").getD .null
    let len := (pyGet rule_config "length").getD .null
    let fmt := (pyGet rule_config "format").getD .null
    let handled : List String :=
      (if pyTruthy seg then ["Segment: " ++ pyStr seg] else []) ++
      (if pyTruthy cad then ["Cadence: " ++ pyStr cad ++ " days"] else []) ++
      (if pyTruthy chan then ["Channel: " ++ pyStr chan] else []) ++
      (if pyTruthy ab then ["A/B tests: " ++ pyStr ab ++ " variants"] else []) ++
      (if pyTruthy var then ["Creative variants: " ++ pyStr var] else []) ++
      (if pyTruthy len then ["Video length: " ++ pyStr len ++ "s"] else []) ++
      (if pyTruthy fmt then ["Format: " ++ pyStr fmt] else [])
    .obj [("rule_matched", .str r), ("segment", seg), ("cadence", cad),
      ("channel", chan), ("variants", var), ("ab_tests", ab), ("length", len),
      ("format", fmt), ("auto_handled", .arr (handled.map Json.str))]

/-! ### The campaign-add path (parse_args, ensure_valid_campaign_args,
    add_campaign, main lines 833-835) -/

/-- The campaign-related command line flags as supplied (a `none` field is
    an omitted flag). -/
structure CliInput where
  name : Option String
  segment : Option String
  trigger : Option String
  channel : Option String
  template : Option String
  status : Option String
  next_send : Option String

/-- The argparse namespace for those flags: omitted options are None,
    --status defaults to "scheduled". -/
structure Args where
  name : Option String
  segment : Option String
  trigger : Option String
  channel : Option String
  template : Option String
  status : String
  next_send : Option String

def status_choices : List String := ["scheduled", "ready", "running", "paused"]

/-- parse_args restricted to the campaign fields: argparse applies the
    --status default and rejects a value outside its choices (SystemExit,
    modelled as `none`). -/
def parse_args (c : CliInput) : Option Args :=
  match c.status with
  | none =>
    some ⟨c.name, c.segment, c.trigger, c.channel, c.template, "scheduled",
      c.next_send⟩
  | some s =>
    if s ∈ status_choices then
      some ⟨c.name, c.segment, c.trigger, c.channel, c.template, s, c.next_send⟩
    else none

/-- Python `not value` on an optional string: None and the empty string. -/
def pyFalsy : Option String → Bool
  | none => true
  | some s => decide (s = "")

/-- The `required` dict of ensure_valid_campaign_args, in insertion order. -/
def required_fields (a : Args) : List (String × Option String) :=
  [("name", a.name), ("segment", a.segment), ("trigger", a.trigger),
   ("channel", a.channel), ("template", a.template)]

/-- The comprehension [key for key, value in required.items() if not value]. -/
def missing_fields (a : Args) : List String :=
  (required_fields a).filterMap fun kv => if pyFalsy kv.2 then some kv.1 else none

/-- ensure_valid_campaign_args: SystemExit (modelled as `.error`) with the
    comma-joined list of every missing field. -/
def ensure_valid_campaign_args (a : Args) : Except String Unit :=
  if missing_fields a = [] then .ok ()
  else
    .error ("Missing required fields for campaign: "
      ++ String.intercalate ", " (missing_fields a))

def optStrJson : Option String → Json
  | some s => .str s
  | none => .null

/-- The record appended by add_campaign: the argparse values as json, with
    `args.next_send or _today_iso()` for the date. -/
def new_campaign (today : String) (a : Args) : Json :=
  .obj [("name", optStrJson a.name), ("segment", optStrJson a.segment),
    ("trigger", optStrJson a.trigger), ("channel", optStrJson a.channel),
    ("template", optStrJson a.template), ("status", .str a.status),
    ("next_send", .str (match a.next_send with
      | some s => if s = "" then today else s
      | none => today))]

/-- add_campaign: campaigns = state.setdefault("campaigns", []);
    campaigns.append(record); save_state(state). setdefault returns the
    stored list when the key exists and inserts an empty list at the end of
    the dict otherwise; `none` marks the run-time TypeError Python raises
    when the state is not a dict or the stored campaigns value not a list. -/
def add_campaign (today : String) (a : Args) (state : Json) :
    Option (Json × FileState) :=
  match state with
  | .obj kvs =>
    match alookup kvs "campaigns" with
    | some (.arr cs) =>
      let newState := Json.obj
        (aupdate kvs "campaigns" (.arr (cs ++ [new_campaign today a])))
      some (newState, save_state newState)
    | some _ => none
    | none =>
      let newState := Json.obj (kvs ++ [("campaigns", .arr [new_campaign today a])])
      some (newState, save_state newState)
  | _ => none

/-- The --add-campaign branch of main (lines 833-835): validate, then
    mutate and persist. The returned FileState is the file after the run;
    on a SystemExit the process dies and the file stays as it was. -/
def main_add_campaign (today : String) (a : Args) (state : Json)
    (fs : FileState) : Except String Json × FileState :=
  match ensure_valid_campaign_args a with
  | .error e => (.error e, fs)
  | .ok _ =>
    match add_campaign today a state with
    | some (st, fs2) => (.ok st, fs2)
    | none => (.error "TypeError", fs)

/-! ### The next-send validator (validate_next_send, lines 807-814)

validate_next_send parses with datetime.strptime(next_send, percent-Y dash
percent-m dash percent-d). CPython compiles that format, with IGNORECASE
and UNICODE, to the anchored regex whose year group is four regex digits,
whose month group is the alternation 1[0-2]|0[1-9]|[1-9], and whose day
group is the alternation 3[01]|[12]d|0[1-9]|[1-9]|space[1-9], where d is
the regex digit class (any Unicode decimal digit, category Nd) and the
bracketed classes are ASCII ranges; it rejects unconverted trailing data,
converts each matched group with int() (which accepts Unicode decimal
digits and leading spaces), and then constructs datetime(y, m, d), which
enforces 1 <= year and day <= days in the month. So a day may be space
padded (space then an ASCII nonzero digit) and the year digits and the
second digit of a 1x/2x day may be any Unicode decimal digits. -/

def leap_year (y : Nat) : Bool :=
  y % 4 = 0 && (y % 100 ≠ 0 || y % 400 = 0)

def days_in_month (y m : Nat) : Nat :=
  if m = 2 then (if leap_year y then 29 else 28)
  else if m = 4 ∨ m = 6 ∨ m = 9 ∨ m = 11 then 30
  else 31

def digitVal (c : Char) : Nat := c.toNat - 48

/-- First code points of the runs of ten consecutive Unicode decimal digits
    (category Nd, each run carrying the digit values 0..9 in order), as of
    the Unicode data CPython 3.11 ships. The regex digit class and int()
    accept exactly these. -/
def ndBases : List Nat :=
  [0x30, 0x660, 0x6F0, 0x7C0, 0x966, 0x9E6, 0xA66, 0xAE6, 0xB66, 0xBE6,
   0xC66, 0xCE6, 0xD66, 0xDE6, 0xE50, 0xED0, 0xF20, 0x1040, 0x1090, 0x17E0,
   0x1810, 0x1946, 0x19D0, 0x1A80, 0x1A90, 0x1B50, 0x1BB0, 0x1C40, 0x1C50,
   0xA620, 0xA8D0, 0xA900, 0xA9D0, 0xA9F0, 0xAA50, 0xABF0, 0xFF10, 0x104A0,
   0x10D30, 0x11066, 0x110F0, 0x11136, 0x111D0, 0x112F0, 0x11450, 0x114D0,
   0x11650, 0x116C0, 0x11730, 0x118E0, 0x11950, 0x11C50, 0x11D50, 0x11DA0,
   0x16A60, 0x16AC0, 0x16B50, 0x1D7CE, 0x1D7D8, 0x1D7E2, 0x1D7EC, 0x1D7F6,
   0x1E140, 0x1E2F0, 0x1E950, 0x1FBF0]

/-- The decimal value of a Unicode decimal digit (category Nd), `none` for
    every other character: the regex d class together with the digit value
    int() assigns. -/
def uDigitVal (c : Char) : Option Nat :=
  (ndBases.find? fun b => b ≤ c.toNat && c.toNat < b + 10).map
    fun b => c.toNat - b

/-- int() of a run of Unicode decimal digits. -/
def uVal (ds : List Char) : Nat :=
  ds.foldl (fun a c => 10 * a + (uDigitVal c).getD 0) 0

/-- The day field, the regex alternation 3[01]|[12]d|0[1-9]|[1-9]|space[1-9]
    followed by int() of the matched text: 30 or 31; an ASCII 1 or 2 then
    any Unicode digit; a zero-padded or space-padded or bare ASCII nonzero
    digit. A two-character remainder whose first matching alternative is the
    single [1-9] leaves unconverted data and fails. -/
def parse_day : List Char → Option Nat
  | [d1] => if decDigit d1 && !(d1 == '0') then some (digitVal d1) else none
  | [d1, d2] =>
    if d1 == '3' then
      if d2 == '0' then some 30
      else if d2 == '1' then some 31
      else none
    else if d1 == '1' || d1 == '2' then
      match uDigitVal d2 with
      | some v => some (digitVal d1 * 10 + v)
      | none => none
    else if d1 == '0' || d1 == ' ' then
      if decDigit d2 && !(d2 == '0') then some (digitVal d2) else none
    else none
  | _ => none

/-- The month field and its following dash, then the day field. The month
    alternation 1[0-2]|0[1-9]|[1-9] is all ASCII: two digits of value 01..12
    followed by the dash, else one nonzero digit followed by the dash (the
    backtracking of the compiled regex, made deterministic: a digit and the
    dash cannot coincide). -/
def parse_md : List Char → Option (Nat × Nat)
  | m1 :: m2 :: rest =>
    if decDigit m1 && decDigit m2 then
      match rest with
      | sep :: rest2 =>
        if sep == '-' then
          let v := digitVal m1 * 10 + digitVal m2
          if 1 ≤ v ∧ v ≤ 12 then (parse_day rest2).map fun dd => (v, dd)
          else none
        else none
      | [] => none
    else if decDigit m1 && (m2 == '-') then
      if m1 == '0' then none
      else (parse_day rest).map fun dd => (digitVal m1, dd)
    else none
  | _ => none

/-- datetime.strptime(s, the dashed date format), as a value (y, m, d), or
    `none` where Python raises ValueError. The four year characters may be
    any Unicode decimal digits. -/
def strptime_Ymd (s : String) : Option (Nat × Nat × Nat) :=
  match s.data with
  | y1 :: y2 :: y3 :: y4 :: sep1 :: rest =>
    match uDigitVal y1, uDigitVal y2, uDigitVal y3, uDigitVal y4 with
    | some v1, some v2, some v3, some v4 =>
      if sep1 == '-' then
        let y := ((v1 * 10 + v2) * 10 + v3) * 10 + v4
        match parse_md rest with
        | some (m, dd) =>
          if 1 ≤ y ∧ dd ≤ days_in_month y m then some (y, m, dd) else none
        | none => none
      else none
    | _, _, _, _ => none
  | _ => none

/-- validate_next_send: unset or empty is accepted as unset; otherwise the
    string must parse, and is returned unchanged; a parse failure is a
    SystemExit with the fixed message. -/
def validate_next_send (next_send : Option String) : Except String (Option String) :=
  match next_send with
  | none => .ok none
  | some s =>
    if s = "" then .ok none
    else
      match strptime_Ymd s with
      | some _ => .ok (some s)
      | none => .error "Invalid --next-send date. Use YYYY-MM-DD."

/-! ### Spec-side definitions and concrete inputs for the claims -/

/-- Spec side: a strict ISO-8601 calendar date, four digit year and zero
    padded two digit month and day, denoting a real calendar date. Written
    from the words YYYY-MM-DD of the specification. -/
def isStrictYmd (s : String) : Bool :=
  match s.data with
  | [y1, y2, y3, y4, c1, m1, m2, c2, d1, d2] =>
    decDigit y1 && decDigit y2 && decDigit y3 && decDigit y4 && (c1 == '-') &&
    decDigit m1 && decDigit m2 && (c2 == '-') && decDigit d1 && decDigit d2 &&
    (let y := ((digitVal y1 * 10 + digitVal y2) * 10 + digitVal y3) * 10
        + digitVal y4
     let m := digitVal m1 * 10 + digitVal m2
     let dd := digitVal d1 * 10 + digitVal d2
     decide (1 ≤ y) && decide (1 ≤ m) && decide (m ≤ 12) && decide (1 ≤ dd) &&
       decide (dd ≤ days_in_month y m))
  | _ => false

/-- The month strings the format accepts: one or two ASCII digits of value
    1..12 (the two-digit values 01..12, the one-digit values 1..9). -/
def MonthShape (ms : List Char) : Prop :=
  1 ≤ ms.length ∧ ms.length ≤ 2 ∧ (∀ c ∈ ms, decDigit c = true) ∧
    1 ≤ decVal ms ∧ decVal ms ≤ 12

/-- The day strings the format accepts, with the day value each denotes:
    one bare ASCII nonzero digit; 30 or 31; an ASCII 1 or 2 followed by any
    Unicode decimal digit; a zero-padded or space-padded ASCII nonzero
    digit. -/
def DayShape (ds : List Char) (dd : Nat) : Prop :=
  (∃ d1, ds = [d1] ∧ decDigit d1 = true ∧ dd = digitVal d1 ∧ 1 ≤ dd) ∨
  (∃ d2, ds = ['3', d2] ∧ (d2 = '0' ∨ d2 = '1') ∧ dd = 30 + digitVal d2) ∨
  (∃ d1 d2 v, ds = [d1, d2] ∧ (d1 = '1' ∨ d1 = '2') ∧ uDigitVal d2 = some v ∧
    dd = digitVal d1 * 10 + v) ∨
  (∃ d1 d2, ds = [d1, d2] ∧ (d1 = '0' ∨ d1 = ' ') ∧ decDigit d2 = true ∧
    dd = digitVal d2 ∧ 1 ≤ dd)

/-- The dates the validator actually accepts, characterised by value: four
    Unicode decimal digits of year, a dash, a month of MonthShape, a dash,
    a day of DayShape, denoting a real calendar date of year at least 1. -/
def LenientYmd (s : String) : Prop :=
  ∃ ys ms ds dd,
    s.data = ys ++ '-' :: (ms ++ '-' :: ds) ∧
    ys.length = 4 ∧ (∀ c ∈ ys, (uDigitVal c).isSome = true) ∧
    MonthShape ms ∧ DayShape ds dd ∧
    1 ≤ uVal ys ∧ dd ≤ days_in_month (uVal ys) (decVal ms)

/-- One keyword set matches when any of its keywords occurs in the
    lowercased idea. -/
def kwMatch (idea : String) (kws : List String) : Bool :=
  kws.any fun kw => pyIn kw (pyLower idea)

/-- The automation-rules table of the sample document. -/
def plan_rules (t tm : String) : Json :=
  pyGetD (sample_state t tm) "automation_rules" (.obj [])

/-- The preset configuration of a rule. -/
def rule_cfg (t tm r : String) : Json := pyGetD (plan_rules t tm) r (.obj [])

/-- Spec side: the explanation lines a plan should carry, one per populated
    (truthy) plan field, in the fixed order segment, cadence, channel,
    ab_tests, variants, length, format, with the wording of the source. -/
def orderedPlanFields : List (String × String × String) :=
  [("segment", "Segment: ", ""), ("cadence", "Cadence: ", " days"),
   ("channel", "Channel: ", ""), ("ab_tests", "A/B tests: ", " variants"),
   ("variants", "Creative variants: ", ""), ("length", "Video length: ", "s"),
   ("format", "Format: ", "")]

def plan_explanations (plan : Json) : List String :=
  orderedPlanFields.filterMap fun f =>
    match pyGet plan f.1 with
    | some v => if pyTruthy v then some (f.2.1 ++ pyStr v ++ f.2.2) else none
    | none => none

/-- The apostrophe, kept out of string literals. -/
def apos : Char := Char.ofNat 39

def ideaSMB : String := "Our CTO at this small business wants..."

def ideaDemo : String := "need a quick demo video"

def ideaGrow : String := "let" ++ String.mk [apos] ++ "s grow the team"

/-- A date whose year digits are the Arabic-Indic digits for 2024. -/
def unicodeYearDate : String :=
  String.mk [Char.ofNat 0x662, Char.ofNat 0x660, Char.ofNat 0x662,
    Char.ofNat 0x664] ++ "-03-01"

/-- The claim-C3 command line: all five required fields, no status flag, no
    next-send flag. -/
def cliC3 : CliInput :=
  ⟨some "Spring promo", some "New Leads", some "Sign-up form", some "Email",
   some "Welcome Series", none, none⟩

/-- The argparse namespace cliC3 produces. -/
def argsC3 : Args :=
  ⟨some "Spring promo", some "New Leads", some "Sign-up form", some "Email",
   some "Welcome Series", "scheduled", none⟩

/-- The claim-C2 command line namespace: only name and segment supplied. -/
def argsC2 : Args :=
  ⟨some "Spring promo", some "New Leads", none, none, none, "scheduled", none⟩

/-- A small well-formed document for the round-trip witness: a newline and
    an astral (non-BMP) character in a string, a plain float, a float with
    a large exponent, NaN and -Infinity. -/
def docC8 : Json :=
  .obj [("profile", .obj [("owner",
      .str ("You" ++ String.mk [Char.ofNat 10, Char.ofNat 0x1F600]))]),
    ("campaigns", .arr [.int 3, .str "x", .dec false "0" (some "5") none,
      .dec true "1" (some "25") (some (some false, "300")), .nan, .inf true])]

/-- An object text with a repeated key, for the dict-semantics conjunct. -/
def dupText : String :=
  String.mk (lbrace :: ((" \"a\": 1, \"a\": 2 ").data ++ [rbrace]))

/-! ### Helper lemmas for the claims -/

theorem aupdate_lookup_ne (l : List (String × Json)) (k k2 : String) (v : Json)
    (h : k2 ≠ k) : alookup (aupdate l k v) k2 = alookup l k2 := by
  induction l with
  | nil => rfl
  | cons kv t ih =>
      obtain ⟨k1, v1⟩ := kv
      by_cases hk : k1 = k
      · subst hk
        simp only [aupdate, if_pos rfl, alookup]
        rw [if_neg fun he => h he.symm, if_neg fun he => h he.symm]
      · simp only [aupdate, if_neg hk, alookup]
        by_cases h2 : k1 = k2
        · simp [h2]
        · simp [h2, ih]

theorem char_eq_of_toNat (c d : Char) (h : c.toNat = d.toNat) : c = d :=
  Char.ext (UInt32.ext h)

theorem decDigit_iff (c : Char) :
    decDigit c = true ↔ 48 ≤ c.toNat ∧ c.toNat ≤ 57 := by
  simp [decDigit]

theorem days_le_31 (y m : Nat) : days_in_month y m ≤ 31 := by
  unfold days_in_month
  split_ifs <;> omega

theorem parse_day_eq_some (ds : List Char) (dd : Nat) :
    parse_day ds = some dd ↔ DayShape ds dd := by
  constructor
  · intro h
    match ds with
    | [] => cases h
    | [d1] =>
      simp only [parse_day] at h
      by_cases hc : (decDigit d1 && !(d1 == '0')) = true
      · rw [if_pos hc] at h
        obtain rfl := Option.some.inj h
        simp only [Bool.and_eq_true, Bool.not_eq_true'] at hc
        obtain ⟨hd, h0⟩ := hc
        obtain ⟨hlo, hhi⟩ := (decDigit_iff d1).mp hd
        have hne : d1 ≠ '0' := by rwa [beq_eq_false_iff_ne] at h0
        have h48 : d1.toNat ≠ 48 := fun he =>
          hne (char_eq_of_toNat d1 '0' (by rw [he]; rfl))
        exact Or.inl ⟨d1, rfl, hd, rfl, by simp only [digitVal]; omega⟩
      · rw [if_neg hc] at h; cases h
    | [d1, d2] =>
      simp only [parse_day] at h
      by_cases h3 : (d1 == '3') = true
      · rw [if_pos h3] at h
        obtain rfl := eq_of_beq h3
        by_cases h30 : (d2 == '0') = true
        · rw [if_pos h30] at h
          obtain rfl := eq_of_beq h30
          obtain rfl := Option.some.inj h
          exact Or.inr (Or.inl ⟨'0', rfl, Or.inl rfl, by decide⟩)
        · rw [if_neg h30] at h
          by_cases h31 : (d2 == '1') = true
          · rw [if_pos h31] at h
            obtain rfl := eq_of_beq h31
            obtain rfl := Option.some.inj h
            exact Or.inr (Or.inl ⟨'1', rfl, Or.inr rfl, by decide⟩)
          · rw [if_neg h31] at h; cases h
      · rw [if_neg h3] at h
        by_cases h12 : (d1 == '1' || d1 == '2') = true
        · rw [if_pos h12] at h
          rcases huv : uDigitVal d2 with _ | v
          · rw [huv] at h; cases h
          · rw [huv] at h
            obtain rfl := Option.some.inj h
            have h12b : d1 = '1' ∨ d1 = '2' := by
              simpa only [Bool.or_eq_true, beq_iff_eq] using h12
            exact Or.inr (Or.inr (Or.inl ⟨d1, d2, v, rfl, h12b, huv, rfl⟩))
        · rw [if_neg h12] at h
          by_cases h0s : (d1 == '0' || d1 == ' ') = true
          · rw [if_pos h0s] at h
            by_cases hc : (decDigit d2 && !(d2 == '0')) = true
            · rw [if_pos hc] at h
              obtain rfl := Option.some.inj h
              simp only [Bool.and_eq_true, Bool.not_eq_true'] at hc
              obtain ⟨hd, h0⟩ := hc
              obtain ⟨hlo, hhi⟩ := (decDigit_iff d2).mp hd
              have hne : d2 ≠ '0' := by rwa [beq_eq_false_iff_ne] at h0
              have h48 : d2.toNat ≠ 48 := fun he =>
                hne (char_eq_of_toNat d2 '0' (by rw [he]; rfl))
              have h0sb : d1 = '0' ∨ d1 = ' ' := by
                simpa only [Bool.or_eq_true, beq_iff_eq] using h0s
              exact Or.inr (Or.inr (Or.inr ⟨d1, d2, rfl, h0sb, hd, rfl,
                by simp only [digitVal]; omega⟩))
            · rw [if_neg hc] at h; cases h
          · rw [if_neg h0s] at h; cases h
    | d1 :: d2 :: d3 :: t => cases h
  · intro h
    rcases h with ⟨d1, rfl, hd, rfl, hge⟩ | ⟨d2, rfl, h01, rfl⟩ |
      ⟨d1, d2, v, rfl, h12, huv, rfl⟩ | ⟨d1, d2, rfl, h0s, hd, rfl, hge⟩
    · simp only [parse_day]
      have hne : (d1 == '0') = false := by
        rw [beq_eq_false_iff_ne]
        intro he
        rw [he] at hge
        simp [digitVal] at hge
      rw [if_pos (by rw [hd, hne]; rfl)]
    · rcases h01 with rfl | rfl
      · decide
      · decide
    · simp only [parse_day]
      have h3 : (d1 == '3') = false := by rcases h12 with rfl | rfl <;> decide
      have h12b : (d1 == '1' || d1 == '2') = true := by
        rcases h12 with rfl | rfl <;> decide
      rw [if_neg (by simp [h3]), if_pos h12b, huv]
    · simp only [parse_day]
      have h3 : (d1 == '3') = false := by rcases h0s with rfl | rfl <;> decide
      have h12b : (d1 == '1' || d1 == '2') = false := by
        rcases h0s with rfl | rfl <;> decide
      have h0sb : (d1 == '0' || d1 == ' ') = true := by
        rcases h0s with rfl | rfl <;> decide
      have hne : (d2 == '0') = false := by
        rw [beq_eq_false_iff_ne]
        intro he
        rw [he] at hge
        simp [digitVal] at hge
      rw [if_neg (by simp [h3]), if_neg (by simp [h12b]), if_pos h0sb,
        if_pos (by rw [hd, hne]; rfl)]

theorem parse_md_eq_some (rest : List Char) (m dd : Nat) :
    parse_md rest = some (m, dd) ↔
      ∃ ms ds, rest = ms ++ '-' :: ds ∧ MonthShape ms ∧ decVal ms = m ∧
        parse_day ds = some dd := by
  constructor
  · intro h
    match rest with
    | [] => cases h
    | [m1] => cases h
    | m1 :: m2 :: rest2 =>
      simp only [parse_md] at h
      by_cases hc : (decDigit m1 && decDigit m2) = true
      · rw [if_pos hc] at h
        simp only [Bool.and_eq_true] at hc
        obtain ⟨hm1, hm2⟩ := hc
        match rest2 with
        | [] => cases h
        | sep :: rest3 =>
          simp only [] at h
          by_cases hsep : (sep == '-') = true
          · rw [if_pos hsep] at h
            obtain rfl := eq_of_beq hsep
            by_cases hv : 1 ≤ digitVal m1 * 10 + digitVal m2 ∧
                digitVal m1 * 10 + digitVal m2 ≤ 12
            · rw [if_pos hv] at h
              rcases hpd : parse_day rest3 with _ | dd2
              · rw [hpd] at h; cases h
              · rw [hpd] at h
                obtain ⟨hmv, hdv⟩ := Prod.mk.injEq .. ▸ Option.some.inj h
                subst hdv
                refine ⟨[m1, m2], rest3, rfl,
                  ⟨by simp, by simp, by simp [hm1, hm2], ?_, ?_⟩, ?_, hpd⟩
                · simp only [decVal, List.foldl]
                  simp only [digitVal] at hv
                  omega
                · simp only [decVal, List.foldl]
                  simp only [digitVal] at hv
                  omega
                · simp only [decVal, List.foldl]
                  simp only [digitVal] at hmv
                  omega
            · rw [if_neg hv] at h; cases h
          · rw [if_neg fun he => hsep (by rw [he])] at h
            cases h
      · rw [if_neg hc] at h
        by_cases hc2 : (decDigit m1 && (m2 == '-')) = true
        · rw [if_pos hc2] at h
          simp only [Bool.and_eq_true] at hc2
          obtain ⟨hm1, hdash⟩ := hc2
          obtain rfl : m2 = '-' := eq_of_beq hdash
          by_cases h0 : (m1 == '0') = true
          · rw [if_pos h0] at h; cases h
          · rw [if_neg fun he => h0 (by rw [he])] at h
            rcases hpd : parse_day rest2 with _ | dd2
            · rw [hpd] at h; cases h
            · rw [hpd] at h
              obtain ⟨hmv, hdv⟩ := Prod.mk.injEq .. ▸ Option.some.inj h
              subst hdv
              obtain ⟨hlo, hhi⟩ := (decDigit_iff m1).mp hm1
              have hne : m1 ≠ '0' := by
                rw [Bool.not_eq_true] at h0
                rwa [beq_eq_false_iff_ne] at h0
              have h48 : m1.toNat ≠ 48 := fun he =>
                hne (char_eq_of_toNat m1 '0' (by rw [he]; rfl))
              refine ⟨[m1], rest2, rfl,
                ⟨by simp, by simp, by simp [hm1], ?_, ?_⟩, ?_, hpd⟩
              · simp only [decVal, List.foldl]
                omega
              · simp only [decVal, List.foldl]
                omega
              · simp only [decVal, List.foldl]
                simp only [digitVal] at hmv
                omega
        · rw [if_neg hc2] at h; cases h
  · rintro ⟨ms, ds, heq, ⟨hms1, hms2, hmsd, hval1, hval2⟩, hval, hpd⟩
    subst heq
    match ms, hms1, hms2 with
    | [m1], _, _ =>
      have hd1 : decDigit m1 = true := hmsd m1 (by simp)
      simp only [List.cons_append, List.nil_append, parse_md]
      rw [if_neg (by simp [(by decide : decDigit '-' = false)])]
      rw [if_pos (by rw [hd1]; simp)]
      rw [if_neg (fun he : (m1 == '0') = true => by
        have h01 := eq_of_beq he
        rw [h01] at hval1
        simp [decVal] at hval1)]
      rw [hpd]
      simp only [Option.map_some']
      have hq : digitVal m1 = m := by
        simp only [decVal, List.foldl] at hval
        simp only [digitVal]
        omega
      rw [hq]
    | [m1, m2], _, _ =>
      have hd1 : decDigit m1 = true := hmsd m1 (by simp)
      have hd2 : decDigit m2 = true := hmsd m2 (by simp)
      simp only [List.cons_append, List.nil_append, parse_md]
      rw [if_pos (by rw [hd1, hd2]; rfl)]
      rw [if_pos (show (('-' : Char) == '-') = true from rfl)]
      have hv1 : 1 ≤ digitVal m1 * 10 + digitVal m2 := by
        simp only [decVal, List.foldl] at hval1
        simp only [digitVal]
        omega
      have hv2 : digitVal m1 * 10 + digitVal m2 ≤ 12 := by
        simp only [decVal, List.foldl] at hval2
        simp only [digitVal]
        omega
      rw [if_pos (show 1 ≤ digitVal m1 * 10 + digitVal m2 ∧
        digitVal m1 * 10 + digitVal m2 ≤ 12 from ⟨hv1, hv2⟩)]
      rw [hpd]
      simp only [Option.map_some']
      have hq : digitVal m1 * 10 + digitVal m2 = m := by
        simp only [decVal, List.foldl] at hval
        simp only [digitVal]
        omega
      rw [hq]

theorem strptime_eq_some (s : String) (y m dd : Nat) :
    strptime_Ymd s = some (y, m, dd) ↔
      ∃ ys ms ds, s.data = ys ++ '-' :: (ms ++ '-' :: ds) ∧
        ys.length = 4 ∧ (∀ c ∈ ys, (uDigitVal c).isSome = true) ∧ uVal ys = y ∧
        MonthShape ms ∧ decVal ms = m ∧ parse_day ds = some dd ∧
        1 ≤ y ∧ dd ≤ days_in_month y m := by
  constructor
  · intro h
    rcases hsd : s.data with _ | ⟨y1, _ | ⟨y2, _ | ⟨y3, _ | ⟨y4, _ | ⟨sep1, rest⟩⟩⟩⟩⟩
    · simp [strptime_Ymd, hsd] at h
    · simp [strptime_Ymd, hsd] at h
    · simp [strptime_Ymd, hsd] at h
    · simp [strptime_Ymd, hsd] at h
    · simp [strptime_Ymd, hsd] at h
    · simp only [strptime_Ymd, hsd] at h
      rcases hv1 : uDigitVal y1 with _ | v1 <;> rw [hv1] at h
      · cases h
      rcases hv2 : uDigitVal y2 with _ | v2 <;> rw [hv2] at h
      · cases h
      rcases hv3 : uDigitVal y3 with _ | v3 <;> rw [hv3] at h
      · cases h
      rcases hv4 : uDigitVal y4 with _ | v4 <;> rw [hv4] at h
      · cases h
      simp only [] at h
      by_cases hsep : (sep1 == '-') = true
      · rw [if_pos hsep] at h
        obtain rfl := eq_of_beq hsep
        rcases hpm : parse_md rest with _ | ⟨m2, dd2⟩ <;> rw [hpm] at h
        · cases h
        simp only [] at h
        split at h
        · rename_i hcy
          have h2 := Option.some.inj h
          rw [Prod.mk.injEq, Prod.mk.injEq] at h2
          obtain ⟨hY, hm2, hdd2⟩ := h2
          subst hY
          subst hm2
          subst hdd2
          obtain ⟨ms, ds, hrest, hMS, hmval, hpd⟩ :=
            (parse_md_eq_some rest m2 dd2).mp hpm
          refine ⟨[y1, y2, y3, y4], ms, ds, ?_, rfl, ?_, ?_, hMS, hmval, hpd,
            hcy.1, hcy.2⟩
          · rw [hrest]
            simp
          · simp [List.forall_mem_cons, hv1, hv2, hv3, hv4]
          · simp only [uVal, List.foldl, hv1, hv2, hv3, hv4, Option.getD_some]
            omega
        · cases h
      · rw [if_neg fun he => hsep (by rw [he])] at h
        cases h
  · rintro ⟨ys, ms, ds, heq, hylen, hydig, hyval, hMS, hmval, hpd, hy1le, hdd2le⟩
    rcases ys with _ | ⟨y1, _ | ⟨y2, _ | ⟨y3, _ | ⟨y4, _ | ⟨y5, t⟩⟩⟩⟩⟩ <;>
      simp at hylen
    obtain ⟨v1, hv1⟩ := Option.isSome_iff_exists.mp (hydig y1 (by simp))
    obtain ⟨v2, hv2⟩ := Option.isSome_iff_exists.mp (hydig y2 (by simp))
    obtain ⟨v3, hv3⟩ := Option.isSome_iff_exists.mp (hydig y3 (by simp))
    obtain ⟨v4, hv4⟩ := Option.isSome_iff_exists.mp (hydig y4 (by simp))
    simp only [strptime_Ymd, heq, List.cons_append, List.nil_append]
    rw [hv1, hv2, hv3, hv4]
    simp only []
    rw [if_pos (show (('-' : Char) == '-') = true from rfl)]
    rw [(parse_md_eq_some (ms ++ '-' :: ds) m dd).mpr ⟨ms, ds, rfl, hMS, hmval, hpd⟩]
    simp only []
    have hE : ((v1 * 10 + v2) * 10 + v3) * 10 + v4 = y := by
      simp only [uVal, List.foldl, hv1, hv2, hv3, hv4, Option.getD_some] at hyval
      omega
    simp only [hE]
    rw [if_pos (show 1 ≤ y ∧ dd ≤ days_in_month y m from ⟨hy1le, hdd2le⟩)]

theorem strptime_lenient (s : String) :
    (∃ v, strptime_Ymd s = some v) ↔ LenientYmd s := by
  constructor
  · rintro ⟨⟨y, m, dd⟩, hv⟩
    obtain ⟨ys, ms, ds, heq, hylen, hydig, hyval, hMS, hmval, hpd, hy1le, hdd2le⟩ :=
      (strptime_eq_some s y m dd).mp hv
    subst hyval
    subst hmval
    exact ⟨ys, ms, ds, dd, heq, hylen, hydig, hMS,
      (parse_day_eq_some ds dd).mp hpd, hy1le, hdd2le⟩
  · rintro ⟨ys, ms, ds, dd, heq, hylen, hydig, hMS, hDS, hy1le, hdd2le⟩
    exact ⟨(uVal ys, decVal ms, dd),
      (strptime_eq_some s _ _ _).mpr ⟨ys, ms, ds, heq, hylen, hydig, rfl, hMS,
        rfl, (parse_day_eq_some ds dd).mpr hDS, hy1le, hdd2le⟩⟩

/-! ### Claim C7 -/

/-- Claim C7, counterexample: the validator is not exact for the
    (zero-padded) YYYY-MM-DD format - the strings 2024-3-1, 2024-03-1 and
    2024-3-space-1 are not of that shape (strptime also takes the
    space-padded day alternative), and neither is a date whose year is
    written in Arabic-Indic digits, yet datetime.strptime accepts them all,
    so the validator accepts them unchanged. -/
theorem claim_C7_counterexample :
    isStrictYmd "2024-3-1" = false ∧
    validate_next_send (some "2024-3-1") = .ok (some "2024-3-1") ∧
    isStrictYmd "2024-03-1" = false ∧
    validate_next_send (some "2024-03-1") = .ok (some "2024-03-1") ∧
    isStrictYmd "2024-3- 1" = false ∧
    validate_next_send (some "2024-3- 1") = .ok (some "2024-3- 1") ∧
    isStrictYmd unicodeYearDate = false ∧
    validate_next_send (some unicodeYearDate) = .ok (some unicodeYearDate) :=
  ⟨by decide, rfl, by decide, rfl, by decide, rfl, by decide, rfl⟩

/-- Claim C7 (amended): unset or empty next_send is accepted as unset;
    2024-03-01 is accepted unchanged while 2024-02-30 (an impossible
    calendar date) and a slash-formatted date are rejected with the fixed
    terminal message; and in general a non-empty string is accepted exactly
    when it is a dashed date with four Unicode-decimal year digits, a one-
    or two-digit ASCII month, and a day field of the strptime day
    alternation (including the space-padded and Unicode-second-digit
    forms), denoting a real calendar date of year at least 1 - a strict
    superset of the zero-padded YYYY-MM-DD form the claim states. -/
theorem claim_C7 :
    validate_next_send none = .ok none ∧
    validate_next_send (some "") = .ok none ∧
    validate_next_send (some "2024-03-01") = .ok (some "2024-03-01") ∧
    validate_next_send (some "2024-02-30")
      = .error "Invalid --next-send date. Use YYYY-MM-DD." ∧
    validate_next_send (some "03/01/2024")
      = .error "Invalid --next-send date. Use YYYY-MM-DD." ∧
    (∀ s : String, s ≠ "" →
      (validate_next_send (some s) = .ok (some s) ↔ LenientYmd s)) ∧
    (∀ s : String, s ≠ "" → ¬ LenientYmd s →
      validate_next_send (some s)
        = .error "Invalid --next-send date. Use YYYY-MM-DD.") := by
  refine ⟨rfl, rfl, rfl, rfl, rfl, ?_, ?_⟩
  · intro s hs
    simp only [validate_next_send, if_neg hs]
    cases hp : strptime_Ymd s with
    | some v =>
      simp only []
      exact ⟨fun _ => (strptime_lenient s).mp ⟨v, hp⟩, fun _ => by trivial⟩
    | none =>
      simp only []
      constructor
      · intro hcontra
        simp at hcontra
      · intro hl
        obtain ⟨v, hv⟩ := (strptime_lenient s).mpr hl
        rw [hp] at hv
        cases hv
  · intro s hs hnl
    simp only [validate_next_send, if_neg hs]
    cases hp : strptime_Ymd s with
    | some v => exact absurd ((strptime_lenient s).mp ⟨v, hp⟩) hnl
    | none => rfl

theorem claim_C7_witness :
    validate_next_send (some "2024-12-31") = .ok (some "2024-12-31") := by
  have h := claim_C7.2.2.2.2.2.1 "2024-12-31" (by decide)
  refine h.mpr ⟨['2', '0', '2', '4'], ['1', '2'], ['3', '1'], 31, rfl, rfl,
    by decide, ⟨by decide, by decide, by decide, by decide, by decide⟩,
    Or.inr (Or.inl ⟨'1', rfl, Or.inr rfl, by decide⟩), by decide, by decide⟩

/-! ### Claim C1 -/

/-- Claim C1, counterexample: under the filesystem condition of an existing
    but unreadable state file, open() raises OSError, which load_state does
    not catch (only json.JSONDecodeError is), so load does raise to its
    caller; the claim that it never raises under any filesystem condition
    is false. -/
theorem claim_C1_counterexample :
    load_state "2026-10-12" "2026-10-13" FileState.unreadable = .error () := rfl

/-- Claim C1 (amended): when the state file is absent or its contents fail
    to parse as JSON, load returns exactly the result of reset - the fresh
    sample document - and also persists it; an immediately following load
    of the persisted file returns the same document. An unreadable file,
    however, raises (see the counterexample). -/
theorem claim_C1 (t tm : String) (ht : wfStr t = true) (htm : wfStr tm = true) :
    load_state t tm .absent
      = .ok (sample_state t tm, save_state (sample_state t tm)) ∧
    (∀ s : String, json_loads s = none →
      load_state t tm (.file s)
        = .ok (sample_state t tm, save_state (sample_state t tm))) ∧
    load_state t tm (save_state (sample_state t tm))
      = .ok (sample_state t tm, save_state (sample_state t tm)) := by
  refine ⟨rfl, ?_, ?_⟩
  · intro s hs
    simp [load_state, hs, reset_state]
  · have hwf := sample_state_wf t tm
    simp only [save_state, load_state, json_loads_dumps _ hwf]

theorem claim_C1_witness :
    load_state "2026-10-12" "2026-10-13" (.file "not json")
      = .ok (sample_state "2026-10-12" "2026-10-13",
        save_state (sample_state "2026-10-12" "2026-10-13")) :=
  (claim_C1 "2026-10-12" "2026-10-13" (by decide) (by decide)).2.1
    "not json" (by rfl)

/-! ### Claim C8 -/

/-- Claim C8: the save/load pair is lossless - for every well-formed state
    document, saving it and then loading it yields exactly the original
    document, with the file left as saved. -/
theorem claim_C8 (t tm : String) (doc : Json) (h : doc.wf = true) :
    load_state t tm (save_state doc) = .ok (doc, save_state doc) := by
  simp only [save_state, load_state, json_loads_dumps doc h]

theorem claim_C8_witness :
    load_state "2026-10-12" "2026-10-13" (save_state docC8)
      = .ok (docC8, save_state docC8) :=
  claim_C8 "2026-10-12" "2026-10-13" docC8 (by decide)

/-! ### Claim C10 -/

/-- Claim C10: load regenerates and persists the sample exactly when the
    file is absent or its text is not valid JSON; whenever the text parses,
    the parsed value is returned unchanged with no structural validation -
    in particular a JSON array is returned as-is, not replaced by sample
    data. The parse accepts everything json.loads accepts: exponent
    numbers, the NaN, Infinity and -Infinity constants, and objects with a
    repeated key, which keep the last value at the first position as a
    Python dict does. -/
theorem claim_C10 (t tm : String) :
    (∀ (s : String) (j : Json), json_loads s = some j →
      load_state t tm (.file s) = .ok (j, .file s)) ∧
    (∀ s : String, json_loads s = none →
      load_state t tm (.file s) = .ok (reset_state t tm)) ∧
    load_state t tm .absent = .ok (reset_state t tm) ∧
    json_loads "[1, 2]" = some (.arr [.int 1, .int 2]) ∧
    load_state t tm (.file "[1, 2]") = .ok (.arr [.int 1, .int 2], .file "[1, 2]") ∧
    json_loads "1e5" = some (.dec false "1" none (some (none, "5"))) ∧
    json_loads "NaN" = some .nan ∧
    json_loads "Infinity" = some (.inf false) ∧
    json_loads "-Infinity" = some (.inf true) ∧
    json_loads dupText = some (.obj [("a", .int 2)]) ∧
    load_state t tm (.file dupText) = .ok (.obj [("a", .int 2)], .file dupText) := by
  refine ⟨?_, ?_, rfl, by rfl, by rfl, by rfl, by rfl, by rfl, by rfl, by rfl, by rfl⟩
  · intro s j hj
    simp [load_state, hj]
  · intro s hs
    simp [load_state, hs]

theorem claim_C10_witness :
    load_state "2026-10-12" "2026-10-13" (.file "7") = .ok (.int 7, .file "7") :=
  (claim_C10 "2026-10-12" "2026-10-13").1 "7" (.int 7) (by rfl)

/-! ### Claim C9 -/

/-- Claim C9, counterexample: a document that has a connectors field whose
    stored value is JSON null is served from integrations - state.get
    returns Python None for the stored null, and the `is None` fallback
    fires although the field is present. -/
theorem claim_C9_counterexample :
    (pyGet (Json.obj [("connectors", Json.null),
        ("integrations", Json.arr [Json.str "legacy"])]) "connectors").isSome
      = true ∧
    connectors_for_display (Json.obj [("connectors", Json.null),
        ("integrations", Json.arr [Json.str "legacy"])])
      = Json.arr [Json.str "legacy"] :=
  ⟨rfl, rfl⟩

/-- Claim C9 (amended): the accessor serves the connectors field whenever
    it is present with a non-null value, and falls back to the integrations
    field (with the empty list as final default) when connectors is absent
    or stored as null. -/
theorem claim_C9 :
    (∀ (kvs : List (String × Json)) (v : Json),
      alookup kvs "connectors" = some v → v ≠ Json.null →
      connectors_for_display (.obj kvs) = v) ∧
    (∀ kvs : List (String × Json),
      alookup kvs "connectors" = none ∨ alookup kvs "connectors" = some Json.null →
      connectors_for_display (.obj kvs)
        = (alookup kvs "integrations").getD (Json.arr [])) := by
  constructor
  · intro kvs v h hne
    simp only [connectors_for_display, pyGet, h, Option.getD]
  · intro kvs h
    rcases h with h | h <;>
      simp [connectors_for_display, pyGet, pyGetD, h, Option.getD]

theorem claim_C9_witness :
    connectors_for_display (Json.obj [("connectors", Json.arr [Json.str "live"]),
        ("integrations", Json.arr [Json.str "legacy"])])
      = Json.arr [Json.str "live"] :=
  claim_C9.1 _ _ (by rfl) (by simp)

theorem find3 {α : Type} (p : α → Bool) (a b c : α) :
    List.find? p [a, b, c]
      = if p a then some a
        else if p b then some b else if p c then some c else none := by
  cases hpa : p a <;> cases hpb : p b <;> cases hpc : p c <;>
    simp [List.find?, hpa, hpb, hpc]

/-! ### Claim C5 -/

/-- Claim C5: the matcher tests the keyword sets in the fixed priority
    order SMB_CTO, Enterprise, Demo_video and the first match wins; the
    CTO/small-business input matches SMB_CTO with its configured segment
    and cadence, the demo-video input matches Demo_video, and an input with
    no keyword yields the fixed default plan - general audience, 0-7
    cadence, email channel, one variant - whose explanation list has
    exactly the two entries Segment selection and Basic scheduling. -/
theorem claim_C5 :
    (∀ idea : String, matched_rule idea =
      if kwMatch idea ["smb", "cto", "tech lead", "technical",
          "small business", "medium business"] then some "SMB_CTO"
      else if kwMatch idea ["enterprise", "vp", "sales", "large",
          "corporation"] then some "Enterprise"
      else if kwMatch idea ["demo", "video", "presentation", "recording",
          "mp4"] then some "Demo_video"
      else none) ∧
    (∀ t tm : String,
      pyGet (generate_auto_plan t tm ideaSMB) "rule_matched"
        = some (.str "SMB_CTO") ∧
      pyGet (generate_auto_plan t tm ideaSMB) "segment"
        = some (.str "Tech Leads") ∧
      pyGet (generate_auto_plan t tm ideaSMB) "cadence"
        = some (.str "0-3-7") ∧
      pyGet (generate_auto_plan t tm ideaDemo) "rule_matched"
        = some (.str "Demo_video") ∧
      generate_auto_plan t tm ideaGrow = default_plan) ∧
    pyGet default_plan "segment" = some (.str "General Audience") ∧
    pyGet default_plan "cadence" = some (.str "0-7") ∧
    pyGet default_plan "channel" = some (.str "Email") ∧
    pyGet default_plan "variants" = some (.int 1) ∧
    pyGet default_plan "auto_handled"
      = some (.arr [.str "Segment selection", .str "Basic scheduling"]) := by
  refine ⟨?_, ?_, rfl, rfl, rfl, rfl, rfl⟩
  · intro idea
    simp only [matched_rule, rule_patterns, find3, kwMatch]
    split_ifs <;> simp
  · intro t tm
    have h1 : matched_rule ideaSMB = some "SMB_CTO" := by decide
    have h2 : matched_rule ideaDemo = some "Demo_video" := by decide
    have h3 : matched_rule ideaGrow = none := by decide
    refine ⟨?_, ?_, ?_, ?_, ?_⟩ <;>
      simp only [generate_auto_plan, h1, h2, h3] <;> rfl

/-! ### Claim C4 -/

/-- Claim C4, counterexample: the SMB_CTO preset does not define length,
    ab_tests is defined only by Enterprise and format only by Demo_video,
    yet the plan built for a matching SMB/CTO idea carries all three keys
    with value null - rule_config.get returns None for an absent preset
    field and the plan stores it, so absent fields are defaulted to null,
    not omitted. -/
theorem claim_C4_counterexample :
    matched_rule ideaSMB = some "SMB_CTO" ∧
    pyGet (rule_cfg "2026-10-12" "2026-10-13" "SMB_CTO") "length" = none ∧
    pyGet (rule_cfg "2026-10-12" "2026-10-13" "SMB_CTO") "ab_tests" = none ∧
    pyGet (rule_cfg "2026-10-12" "2026-10-13" "SMB_CTO") "format" = none ∧
    pyGet (generate_auto_plan "2026-10-12" "2026-10-13" ideaSMB) "length"
      = some Json.null ∧
    pyGet (generate_auto_plan "2026-10-12" "2026-10-13" ideaSMB) "ab_tests"
      = some Json.null ∧
    pyGet (generate_auto_plan "2026-10-12" "2026-10-13" ideaSMB) "format"
      = some Json.null := by
  refine ⟨by decide, rfl, rfl, rfl, rfl, rfl, rfl⟩

/-- Claim C4 (amended): for every matching idea, the plan carries the rule
    identifier, the preset's segment, cadence, channel and variant count
    (with the documented defaults when absent), and always carries the keys
    ab_tests, length and format - holding null when the preset does not
    define them; the explanation list holds exactly one line per truthy
    plan field, in the fixed order segment, cadence, channel, ab_tests,
    variants, length, format. -/
theorem claim_C4 (t tm idea r : String) (h : matched_rule idea = some r) :
    pyGet (generate_auto_plan t tm idea) "rule_matched" = some (.str r) ∧
    pyGet (generate_auto_plan t tm idea) "segment"
      = some (pyGetD (rule_cfg t tm r) "segment" (.str "General Audience")) ∧
    pyGet (generate_auto_plan t tm idea) "cadence"
      = some (pyGetD (rule_cfg t tm r) "cadence" (.str "0-7")) ∧
    pyGet (generate_auto_plan t tm idea) "channel"
      = some (pyGetD (rule_cfg t tm r) "channel" (.str "Email")) ∧
    pyGet (generate_auto_plan t tm idea) "variants"
      = some (pyGetD (rule_cfg t tm r) "variants" (.int 1)) ∧
    pyGet (generate_auto_plan t tm idea) "ab_tests"
      = some ((pyGet (rule_cfg t tm r) "ab_tests").getD .null) ∧
    pyGet (generate_auto_plan t tm idea) "length"
      = some ((pyGet (rule_cfg t tm r) "length").getD .null) ∧
    pyGet (generate_auto_plan t tm idea) "format"
      = some ((pyGet (rule_cfg t tm r) "format").getD .null) ∧
    pyGet (generate_auto_plan t tm idea) "auto_handled"
      = some (.arr ((plan_explanations (generate_auto_plan t tm idea)).map
          Json.str)) := by
  have hr : r = "SMB_CTO" ∨ r = "Enterprise" ∨ r = "Demo_video" := by
    have h2 := h
    simp only [matched_rule] at h2
    rcases Option.map_eq_some'.mp h2 with ⟨a, ha, hfst⟩
    have hm := List.mem_of_find?_eq_some ha
    simp only [rule_patterns, List.mem_cons, List.not_mem_nil, or_false] at hm
    rcases hm with rfl | rfl | rfl
    · exact Or.inl hfst.symm
    · exact Or.inr (Or.inl hfst.symm)
    · exact Or.inr (Or.inr hfst.symm)
  rcases hr with rfl | rfl | rfl <;>
    · simp only [generate_auto_plan, h]
      exact ⟨rfl, rfl, rfl, rfl, rfl, rfl, rfl, rfl, rfl⟩

theorem claim_C4_witness :
    pyGet (generate_auto_plan "2026-10-12" "2026-10-13" ideaDemo) "rule_matched"
      = some (.str "Demo_video") :=
  (claim_C4 "2026-10-12" "2026-10-13" ideaDemo "Demo_video" (by decide)).1

/-! ### Claim C2 -/

/-- Claim C2: when any required campaign field is missing or empty, the
    add-campaign run exits with an error message that names every missing
    field, comma separated in the fixed field order, and the state file is
    left untouched; and a field is reported missing exactly when its
    argparse value is None or the empty string. -/
theorem claim_C2 (today : String) (a : Args) (state : Json) (fs : FileState)
    (h : missing_fields a ≠ []) :
    main_add_campaign today a state fs
      = (.error ("Missing required fields for campaign: "
          ++ String.intercalate ", " (missing_fields a)), fs) ∧
    (∀ f : String, f ∈ missing_fields a ↔
      ∃ v, (f, v) ∈ required_fields a ∧ pyFalsy v = true) := by
  constructor
  · simp only [main_add_campaign, ensure_valid_campaign_args, if_neg h]
  · intro f
    simp only [missing_fields, List.mem_filterMap]
    constructor
    · rintro ⟨⟨k, v⟩, hkv, hif⟩
      split at hif
      · obtain rfl := Option.some.inj hif
        exact ⟨v, hkv, by assumption⟩
      · cases hif
    · rintro ⟨v, hv, hfv⟩
      refine ⟨(f, v), hv, ?_⟩
      simp [hfv]

theorem claim_C2_witness :
    (main_add_campaign "2026-10-12" argsC2 (Json.obj []) .absent).1
      = .error "Missing required fields for campaign: trigger, channel, template" := by
  have h := (claim_C2 "2026-10-12" argsC2 (Json.obj []) .absent (by decide)).1
  rw [h]
  rfl

/-! ### Claim C3 -/

/-- Claim C3: a fully specified add-campaign run succeeds - the campaigns
    list gains exactly the new record, appended at the end, every other key
    of the state is untouched, and the new state is persisted; the record
    carries the argparse values, the status defaults to scheduled when no
    --status flag was given, and the next-send date falls back to today
    when absent or empty. -/
theorem claim_C3 (today : String) (c : CliInput) (a : Args)
    (kvs : List (String × Json)) (cs : List Json) (fs : FileState)
    (hp : parse_args c = some a)
    (h1 : pyFalsy a.name = false) (h2 : pyFalsy a.segment = false)
    (h3 : pyFalsy a.trigger = false) (h4 : pyFalsy a.channel = false)
    (h5 : pyFalsy a.template = false)
    (hc : alookup kvs "campaigns" = some (.arr cs)) :
    main_add_campaign today a (.obj kvs) fs
      = (.ok (Json.obj (aupdate kvs "campaigns"
            (.arr (cs ++ [new_campaign today a])))),
         save_state (Json.obj (aupdate kvs "campaigns"
            (.arr (cs ++ [new_campaign today a]))))) ∧
    (c.status = none → a.status = "scheduled") ∧
    (a.next_send = none ∨ a.next_send = some "" →
      pyGet (new_campaign today a) "next_send" = some (.str today)) ∧
    pyGet (new_campaign today a) "name" = some (optStrJson a.name) ∧
    pyGet (new_campaign today a) "segment" = some (optStrJson a.segment) ∧
    pyGet (new_campaign today a) "trigger" = some (optStrJson a.trigger) ∧
    pyGet (new_campaign today a) "channel" = some (optStrJson a.channel) ∧
    pyGet (new_campaign today a) "template" = some (optStrJson a.template) ∧
    pyGet (new_campaign today a) "status" = some (.str a.status) ∧
    (∀ k2, k2 ≠ "campaigns" →
      alookup (aupdate kvs "campaigns" (.arr (cs ++ [new_campaign today a]))) k2
        = alookup kvs k2) := by
  have hm : missing_fields a = [] := by
    simp [missing_fields, required_fields, h1, h2, h3, h4, h5]
  refine ⟨?_, ?_, ?_, rfl, rfl, rfl, rfl, rfl, rfl,
    fun k2 hk2 => aupdate_lookup_ne kvs "campaigns" k2 _ hk2⟩
  · simp [main_add_campaign, ensure_valid_campaign_args, hm, add_campaign, hc]
  · intro hs
    simp only [parse_args] at hp
    rw [hs] at hp
    obtain rfl := Option.some.inj hp
    rfl
  · intro hns
    rcases hns with h | h <;> simp [new_campaign, pyGet, alookup, h]

theorem claim_C3_witness :
    main_add_campaign "2026-10-12" argsC3
        (Json.obj [("campaigns", Json.arr [])]) .absent
      = (.ok (Json.obj [("campaigns",
            Json.arr [new_campaign "2026-10-12" argsC3])]),
         save_state (Json.obj [("campaigns",
            Json.arr [new_campaign "2026-10-12" argsC3])])) ∧
    pyGet (new_campaign "2026-10-12" argsC3) "next_send"
      = some (.str "2026-10-12") := by
  have h := claim_C3 "2026-10-12" cliC3 argsC3 [("campaigns", Json.arr [])] []
    .absent (by rfl) (by decide) (by decide) (by decide) (by decide) (by decide)
    (by rfl)
  exact ⟨h.1, h.2.2.1 (Or.inl rfl)⟩

/-! ### Claim C6 -/

/-- Claim C6, counterexample: scheduled, pending, degraded and ready do not
    all map to one common class - scheduled is cyan while the other three
    are yellow. -/
theorem claim_C6_counterexample :
    _status_color "scheduled" = "cyan" ∧ _status_color "pending" = "yellow" ∧
    _status_color "degraded" = "yellow" ∧ _status_color "ready" = "yellow" ∧
    ("cyan" : String) ≠ "yellow" :=
  ⟨by decide, by decide, by decide, by decide, by decide⟩

/-- Claim C6 (amended): the mapping is a total function, matching is case
    insensitive; running, connected and healthy share the positive class;
    pending, degraded and ready share the caution class while scheduled has
    its own distinct class; paused, offline and failed share the negative
    class; maintenance has a distinct informational class; and every other
    status falls to the neutral default class. -/
theorem claim_C6 :
    (∀ s t : String, pyLower s = pyLower t → _status_color s = _status_color t) ∧
    (∀ s : String, _status_color s
        ∈ ["green", "cyan", "yellow", "red", "magenta", "white"]) ∧
    _status_color "running" = "green" ∧ _status_color "connected" = "green" ∧
    _status_color "healthy" = "green" ∧
    _status_color "scheduled" = "cyan" ∧
    _status_color "pending" = "yellow" ∧ _status_color "degraded" = "yellow" ∧
    _status_color "ready" = "yellow" ∧
    _status_color "paused" = "red" ∧ _status_color "offline" = "red" ∧
    _status_color "failed" = "red" ∧
    _status_color "maintenance" = "magenta" ∧
    ("magenta" : String) ∉ ["green", "cyan", "yellow", "red", "white"] ∧
    ("cyan" : String) ∉ ["green", "yellow", "red", "magenta", "white"] ∧
    (∀ s : String,
      pyLower s ∉ ["running", "scheduled", "ready", "paused", "connected",
        "healthy", "degraded", "maintenance", "pending", "offline", "failed"] →
      _status_color s = "white") := by
  refine ⟨?_, ?_, by decide, by decide, by decide, by decide, by decide,
    by decide, by decide, by decide, by decide, by decide, by decide,
    by decide, by decide, ?_⟩
  · intro s t h
    simp only [_status_color, h]
  · intro s
    simp only [_status_color]
    split_ifs <;> simp
  · intro s h
    simp only [_status_color]
    split_ifs with h1 h2 h3 h4 h5 h6 h7 h8 h9 h10 h11 <;> simp_all

theorem claim_C6_witness :
    _status_color "Running" = _status_color "running" ∧
    _status_color "bogus" = "white" :=
  ⟨claim_C6.1 "Running" "running" (by decide),
   claim_C6.2.2.2.2.2.2.2.2.2.2.2.2.2.2.2 "bogus" (by decide)⟩

end MarketingTool
